import Mathlib

/-!
Verification of the Apple Notes MCP server (mcp-apple-notes).

This file shallowly embeds the parts of the repository that the claims
C1..C10 are about:

* the script-execution adapter `runJxa` (src/jxa-adapter.ts, the variant
  with a timeout parameter): channel selection, JSON dispatch, timeout race;
* the Zod result validation performed by every operation of
  src/notes-service.ts, modelled as decidable conformance checks on a JSON
  value type plus the unknown-key stripping that Zod's `parse` performs;
* the JXA scripts that the service layer generates (listNotes, searchNotes,
  batchMoveNotes, listFolders flat and nested), modelled as pure functions
  over an explicit model of the Notes store (accounts / folders / notes);
* the pure TypeScript helpers `escapeHtml` and the input validation of
  `updateNote`;
* the wiring between the MCP tool dispatch of src/index.ts and the exported
  service functions.

Modelling conventions:
* JavaScript strings are Lean `String`s; single-character global regex
  replacement, `includes`, `toLowerCase`, `trim`, `substring` and `slice`
  are modelled by explicit Lean functions with JavaScript semantics
  (negative `slice` ends count from the end of the array, `""` is falsy).
* Dates are modelled by their millisecond timestamps (`Int`); a JXA
  `Date` that is `null` is `Option.none`, and `toISOString` on a valid
  date is represented by the timestamp itself (the conversion is injective
  and order preserving, which is all the claims use).  `toISOString` on a
  missing date throws, which the models propagate as `Except.error`.
* `JSON.parse` of the host is a parameter (`String → Option Json`); the
  repository never implements JSON parsing itself.
* The `Promise.race` of the adapter is modelled by comparing the settle
  time of the child process with the timeout.
-/

/-! ## JavaScript string and array primitives -/

/-- Prefix test on character lists (JS `String.prototype.startsWith` on code
units, used only to build the substring test below). -/
def isPrefixB : List Char → List Char → Bool
  | [], _ => true
  | _ :: _, [] => false
  | a :: as, b :: bs => a == b && isPrefixB as bs

/-- Substring test on character lists: `isInfixB needle hay` is JS
`hay.includes(needle)` (an empty needle is always contained). -/
def isInfixB (needle : List Char) : List Char → Bool
  | [] => needle.isEmpty
  | c :: t => isPrefixB needle (c :: t) || isInfixB needle t

/-- JS `s.includes(pat)`. -/
def jsIncludes (s pat : String) : Bool := isInfixB pat.toList s.toList

/-- JS `Array.prototype.slice(0, lim)`: a negative end counts from the end
of the array, and the end is clamped to the array length. -/
def jsSliceTo (lim : Int) (xs : List α) : List α :=
  let n : Int := xs.length
  let e : Int := if lim < 0 then max 0 (n + lim) else min lim n
  xs.take e.toNat

/-- JS truthiness of an optional string argument: `undefined` and `""` are
falsy, every other string is truthy. -/
def jsTruthyStr : Option String → Bool
  | none => false
  | some s => s != ""

/-! ## Stable descending sort

`Array.prototype.sort` with the comparator `(a, b) => keyOf b - keyOf a`
is a stable descending sort by `keyOf`.  All stable sorts agree on their
output, so the JS sort is modelled by stable insertion sort: an element is
inserted after every earlier element whose key is at least as large. -/

/-- Insert `x` into a descending-sorted list, after all elements with a key
at least as large (stability). -/
def insertKeyDesc (keyOf : α → Int) (x : α) : List α → List α
  | [] => [x]
  | y :: ys => if keyOf y < keyOf x then x :: y :: ys else y :: insertKeyDesc keyOf x ys

/-- Stable descending insertion sort by an integer key; models the JS
`sort((a, b) => keyOf b - keyOf a)` on arrays. -/
def sortKeyDesc (keyOf : α → Int) : List α → List α
  | [] => []
  | x :: xs => insertKeyDesc keyOf x (sortKeyDesc keyOf xs)

theorem insertKeyDesc_perm (keyOf : α → Int) (x : α) (l : List α) :
    List.Perm (insertKeyDesc keyOf x l) (x :: l) := by
  induction l with
  | nil => simp [insertKeyDesc]
  | cons y ys ih =>
    simp only [insertKeyDesc]
    by_cases h : keyOf y < keyOf x
    · simp [h]
    · simp only [h, if_neg, ite_false]
      exact (List.Perm.cons y ih).trans (List.Perm.swap x y ys)

theorem sortKeyDesc_perm (keyOf : α → Int) (l : List α) :
    List.Perm (sortKeyDesc keyOf l) l := by
  induction l with
  | nil => simp [sortKeyDesc]
  | cons x xs ih =>
    simp only [sortKeyDesc]
    exact (insertKeyDesc_perm keyOf x (sortKeyDesc keyOf xs)).trans (List.Perm.cons x ih)

theorem insertKeyDesc_pairwise (keyOf : α → Int) (x : α) (l : List α)
    (h : List.Pairwise (fun a b => keyOf b ≤ keyOf a) l) :
    List.Pairwise (fun a b => keyOf b ≤ keyOf a) (insertKeyDesc keyOf x l) := by
  induction l with
  | nil => simp [insertKeyDesc]
  | cons y ys ih =>
    rcases List.pairwise_cons.mp h with ⟨hy, hys⟩
    by_cases hlt : keyOf y < keyOf x
    · rw [insertKeyDesc, if_pos hlt]
      refine List.pairwise_cons.mpr ⟨?_, h⟩
      intro b hb
      rcases List.mem_cons.mp hb with hb | hb
      · subst hb; omega
      · have := hy b hb; omega
    · rw [insertKeyDesc, if_neg hlt]
      refine List.pairwise_cons.mpr ⟨?_, ih hys⟩
      intro b hb
      have hperm := insertKeyDesc_perm keyOf x ys
      have hb' : b ∈ x :: ys := hperm.mem_iff.mp hb
      rcases List.mem_cons.mp hb' with hb'' | hb''
      · subst hb''; omega
      · exact hy b hb''

theorem sortKeyDesc_pairwise (keyOf : α → Int) (l : List α) :
    List.Pairwise (fun a b => keyOf b ≤ keyOf a) (sortKeyDesc keyOf l) := by
  induction l with
  | nil => simp [sortKeyDesc]
  | cons x xs ih => exact insertKeyDesc_pairwise keyOf x _ ih

/-! ## escapeHtml (src/notes-service.ts, `escapeHtml`, and the inline copy
inside the createNote JXA script)

The source applies five global single-character regex replacements in
sequence:
`&`→`&amp;`, `<`→`&lt;`, `>`→`&gt;`, `"`→`&quot;`, `'`→`&#039;`. -/

/-- Global replacement of the single character `c` by the string `rep`
(JS `text.replace(/c/g, rep)` for a single-character pattern). -/
def replaceAllChar (c : Char) (rep : List Char) : List Char → List Char
  | [] => []
  | x :: xs => (if x == c then rep else [x]) ++ replaceAllChar c rep xs

/-- The `escapeHtml` helper of src/notes-service.ts: the five sequential
global replacements, `&` first. -/
def escapeHtml (s : String) : String :=
  (replaceAllChar '\'' "&#039;".toList
    (replaceAllChar '"' "&quot;".toList
      (replaceAllChar '>' "&gt;".toList
        (replaceAllChar '<' "&lt;".toList
          (replaceAllChar '&' "&amp;".toList s.toList))))).asString

/-- Entity of a single character under the intended escaping map. -/
def htmlEntityOf (c : Char) : List Char :=
  if c == '&' then "&amp;".toList
  else if c == '<' then "&lt;".toList
  else if c == '>' then "&gt;".toList
  else if c == '"' then "&quot;".toList
  else if c == '\'' then "&#039;".toList
  else [c]

/-- The HTML content that `createNote` embeds into the note body
(src/notes-service.ts, createNote JXA script). -/
def createNoteHtmlContent (title body : String) : String :=
  "<div><b>" ++ escapeHtml title ++ "</b></div><div><br></div><div>" ++
    escapeHtml body ++ "</div>"

/-- The HTML body that `updateNote` passes to its JXA script when a body is
provided (src/notes-service.ts, updateNote). -/
def updateNoteHtmlBody (body : String) : String :=
  "<div>" ++ escapeHtml body ++ "</div>"

theorem replaceAllChar_append (c : Char) (rep : List Char) (l₁ l₂ : List Char) :
    replaceAllChar c rep (l₁ ++ l₂) =
      replaceAllChar c rep l₁ ++ replaceAllChar c rep l₂ := by
  induction l₁ with
  | nil => simp [replaceAllChar]
  | cons x xs ih => simp [replaceAllChar, ih]

/-- On a single character the five passes compute the entity map. -/
theorem escapePasses_single (x : Char) :
    replaceAllChar '\'' "&#039;".toList
      (replaceAllChar '"' "&quot;".toList
        (replaceAllChar '>' "&gt;".toList
          (replaceAllChar '<' "&lt;".toList
            (replaceAllChar '&' "&amp;".toList [x])))) = htmlEntityOf x := by
  by_cases h1 : x = '&'
  · subst h1; decide
  · by_cases h2 : x = '<'
    · subst h2; decide
    · by_cases h3 : x = '>'
      · subst h3; decide
      · by_cases h4 : x = '"'
        · subst h4; decide
        · by_cases h5 : x = '\''
          · subst h5; decide
          · simp [replaceAllChar, htmlEntityOf, h1, h2, h3, h4, h5]

/-- Sequential replacement equals the per-character entity map: later
passes never rewrite the entities introduced by earlier ones. -/
theorem escapeHtml_eq_flatMap (s : String) :
    escapeHtml s = (s.toList.flatMap htmlEntityOf).asString := by
  unfold escapeHtml
  congr 1
  induction s.toList with
  | nil => simp [replaceAllChar]
  | cons x xs ih =>
    have hx : replaceAllChar '&' "&amp;".toList (x :: xs) =
        replaceAllChar '&' "&amp;".toList [x] ++ replaceAllChar '&' "&amp;".toList xs := by
      simpa using replaceAllChar_append '&' "&amp;".toList [x] xs
    rw [hx, replaceAllChar_append, replaceAllChar_append, replaceAllChar_append,
      replaceAllChar_append, escapePasses_single, ih, List.flatMap_cons]

/-- No character of any entity is one of `<`, `>`, `"`, `'`. -/
theorem htmlEntityOf_no_forbidden (c d : Char) (hd : d ∈ htmlEntityOf c) :
    d ≠ '<' ∧ d ≠ '>' ∧ d ≠ '"' ∧ d ≠ '\'' := by
  by_cases h1 : c = '&'
  · subst h1
    rw [show htmlEntityOf '&' = ['&', 'a', 'm', 'p', ';'] from by decide] at hd
    fin_cases hd <;> decide
  · by_cases h2 : c = '<'
    · subst h2
      rw [show htmlEntityOf '<' = ['&', 'l', 't', ';'] from by decide] at hd
      fin_cases hd <;> decide
    · by_cases h3 : c = '>'
      · subst h3
        rw [show htmlEntityOf '>' = ['&', 'g', 't', ';'] from by decide] at hd
        fin_cases hd <;> decide
      · by_cases h4 : c = '"'
        · subst h4
          rw [show htmlEntityOf '"' = ['&', 'q', 'u', 'o', 't', ';'] from by decide] at hd
          fin_cases hd <;> decide
        · by_cases h5 : c = '\''
          · subst h5
            rw [show htmlEntityOf '\'' = ['&', '#', '0', '3', '9', ';'] from by decide] at hd
            fin_cases hd <;> decide
          · have : htmlEntityOf c = [c] := by
              simp [htmlEntityOf, h1, h2, h3, h4, h5]
            rw [this] at hd
            rcases List.mem_singleton.mp hd with rfl
            exact ⟨h2, h3, h4, h5⟩

/-! ## JSON values and Zod result schemas (src/notes-service.ts)

Every data-returning operation except `createFolder` runs
`Schema.parse(result)` on the value produced by `runJxa` and returns the
parsed value, letting the `ZodError` escape into its catch block (which
rethrows) when the value does not conform.  Zod's `parse` checks the shape
and rebuilds objects from the declared keys, dropping unknown keys.
Numbers are modelled as integers (no claim depends on fractional values).
-/

inductive Json where
  | null : Json
  | bool : Bool → Json
  | num : Int → Json
  | str : String → Json
  | arr : List Json → Json
  | obj : List (String × Json) → Json

/-- Lookup of a field in a JS object (first binding wins). -/
def jsonLookup (kvs : List (String × Json)) (k : String) : Option Json :=
  (kvs.find? (fun p => p.1 == k)).map (fun p => p.2)

/-- Check that a required field is a string (`z.string()`). -/
def fieldIsStr (kvs : List (String × Json)) (k : String) : Bool :=
  match jsonLookup kvs k with
  | some (.str _) => true
  | _ => false

/-- Check that an optional field, if present, is a string
(`z.string().optional()`). -/
def fieldIsOptStr (kvs : List (String × Json)) (k : String) : Bool :=
  match jsonLookup kvs k with
  | some (.str _) => true
  | none => true
  | _ => false

/-- Check that a required field is a number (`z.number()`). -/
def fieldIsNum (kvs : List (String × Json)) (k : String) : Bool :=
  match jsonLookup kvs k with
  | some (.num _) => true
  | _ => false

/-- Check that a required field is a boolean (`z.boolean()`). -/
def fieldIsBool (kvs : List (String × Json)) (k : String) : Bool :=
  match jsonLookup kvs k with
  | some (.bool _) => true
  | _ => false

/-- Zod's unknown-key stripping on an object: keep only declared keys. -/
def stripKeys (keys : List String) : Json → Json
  | .obj kvs => .obj (kvs.filter (fun p => keys.contains p.1))
  | j => j

/-- Option-valued `mapM` over a list, used to model Zod array parsing. -/
def mapOption (f : α → Option β) : List α → Option (List β)
  | [] => some []
  | x :: xs =>
    match f x, mapOption f xs with
    | some y, some ys => some (y :: ys)
    | _, _ => none

/-- Zod `parse` for a flat object schema: succeed exactly on conforming
values and strip unknown keys. -/
def zodParse (conforms : Json → Bool) (keys : List String) (j : Json) : Option Json :=
  if conforms j then some (stripKeys keys j) else none

/-- Zod `parse` for `z.array(schema)`: parse every element. -/
def zodParseArray (p : Json → Option Json) : Json → Option Json
  | .arr xs => (mapOption p xs).map Json.arr
  | _ => none

/-- NoteMetadataSchema (src/notes-service.ts). -/
def NoteMetadataConforms : Json → Bool
  | .obj kvs =>
    fieldIsStr kvs "id" && fieldIsStr kvs "name" &&
    fieldIsStr kvs "modificationDate" && fieldIsStr kvs "creationDate" &&
    fieldIsOptStr kvs "folderName" && fieldIsOptStr kvs "folderId" &&
    fieldIsOptStr kvs "preview"
  | _ => false

def noteMetadataKeys : List String :=
  ["id", "name", "modificationDate", "creationDate", "folderName", "folderId", "preview"]

/-- NoteDetailSchema: NoteMetadataSchema extended with `body` and
`plaintext`. -/
def NoteDetailConforms : Json → Bool
  | .obj kvs =>
    fieldIsStr kvs "id" && fieldIsStr kvs "name" &&
    fieldIsStr kvs "modificationDate" && fieldIsStr kvs "creationDate" &&
    fieldIsOptStr kvs "folderName" && fieldIsOptStr kvs "folderId" &&
    fieldIsOptStr kvs "preview" && fieldIsStr kvs "body" && fieldIsStr kvs "plaintext"
  | _ => false

def noteDetailKeys : List String := noteMetadataKeys ++ ["body", "plaintext"]

/-- NoteForSummarySchema. -/
def NoteForSummaryConforms : Json → Bool
  | .obj kvs =>
    fieldIsStr kvs "id" && fieldIsStr kvs "name" && fieldIsStr kvs "plaintext" &&
    fieldIsStr kvs "creationDate" && fieldIsStr kvs "modificationDate" &&
    fieldIsStr kvs "folderName" && fieldIsNum kvs "wordCount" && fieldIsNum kvs "characterCount"
  | _ => false

def noteForSummaryKeys : List String :=
  ["id", "name", "plaintext", "creationDate", "modificationDate", "folderName",
    "wordCount", "characterCount"]

/-- CreateNoteResultSchema. -/
def CreateNoteResultConforms : Json → Bool
  | .obj kvs => fieldIsStr kvs "id" && fieldIsStr kvs "name"
  | _ => false

def createNoteResultKeys : List String := ["id", "name"]

/-- UpdateNoteResultSchema. -/
def UpdateNoteResultConforms : Json → Bool
  | .obj kvs =>
    fieldIsStr kvs "id" && fieldIsStr kvs "name" &&
    fieldIsStr kvs "modificationDate" && fieldIsBool kvs "success"
  | _ => false

def updateNoteResultKeys : List String := ["id", "name", "modificationDate", "success"]

/-- MoveNoteResultSchema (the variant of notes-service.ts whose moveNote
reports previous and new folder). -/
def MoveNoteResultConforms : Json → Bool
  | .obj kvs =>
    fieldIsStr kvs "id" && fieldIsStr kvs "name" &&
    fieldIsStr kvs "previousFolderId" && fieldIsStr kvs "newFolderId" &&
    fieldIsStr kvs "newFolderName" && fieldIsBool kvs "success"
  | _ => false

def moveNoteResultKeys : List String :=
  ["id", "name", "previousFolderId", "newFolderId", "newFolderName", "success"]

/-- DeleteNoteResultSchema. -/
def DeleteNoteResultConforms : Json → Bool
  | .obj kvs => fieldIsStr kvs "id" && fieldIsStr kvs "name" && fieldIsBool kvs "success"
  | _ => false

def deleteNoteResultKeys : List String := ["id", "name", "success"]

/-- FolderSchema (flat variant: id, name, accountName, noteCount). -/
def FolderConforms : Json → Bool
  | .obj kvs =>
    fieldIsStr kvs "id" && fieldIsStr kvs "name" &&
    fieldIsStr kvs "accountName" && fieldIsNum kvs "noteCount"
  | _ => false

def folderKeys : List String := ["id", "name", "accountName", "noteCount"]

/-- Element schema of `BatchMoveResultSchema.failed`. -/
def FailedEntryConforms : Json → Bool
  | .obj kvs => fieldIsStr kvs "noteId" && fieldIsStr kvs "error"
  | _ => false

def failedEntryKeys : List String := ["noteId", "error"]

/-- BatchMoveResultSchema: success boolean, moved number, failed array of
`{noteId, error}` objects. -/
def BatchMoveResultConforms : Json → Bool
  | .obj kvs =>
    fieldIsBool kvs "success" && fieldIsNum kvs "moved" &&
    (match jsonLookup kvs "failed" with
      | some (.arr xs) => xs.all FailedEntryConforms
      | _ => false)
  | _ => false

/-- Zod `parse` for BatchMoveResultSchema, rebuilding the object shape and
parsing every element of `failed` (nested stripping). -/
def parseBatchMoveResult : Json → Option Json
  | .obj kvs =>
    match jsonLookup kvs "success", jsonLookup kvs "moved", jsonLookup kvs "failed" with
    | some (.bool b), some (.num m), some (.arr xs) =>
      (mapOption (zodParse FailedEntryConforms failedEntryKeys) xs).map
        (fun ys => .obj [("success", .bool b), ("moved", .num m), ("failed", .arr ys)])
    | _, _, _ => none
  | _ => none

/-! ### Per-operation result handling

Each `try { const result = await runJxa(...); const validated =
Schema.parse(result); return validated; } catch { throw new Error(...) }`
block, restricted to the case where `runJxa` completed with `raw`.
`createFolder` is the exception: it returns `result` with no parse. -/

def listNotesValidate (raw : Json) : Except String Json :=
  match zodParseArray (zodParse NoteMetadataConforms noteMetadataKeys) raw with
  | some v => .ok v
  | none => .error "Failed to list notes: invalid result shape"

def searchNotesValidate (raw : Json) : Except String Json :=
  match zodParseArray (zodParse NoteMetadataConforms noteMetadataKeys) raw with
  | some v => .ok v
  | none => .error "Failed to search notes: invalid result shape"

def readNoteValidate (raw : Json) : Except String Json :=
  match zodParse NoteDetailConforms noteDetailKeys raw with
  | some v => .ok v
  | none => .error "Failed to read note: invalid result shape"

def getNoteForSummaryValidate (raw : Json) : Except String Json :=
  match zodParse NoteForSummaryConforms noteForSummaryKeys raw with
  | some v => .ok v
  | none => .error "Failed to get note for summary: invalid result shape"

def createNoteValidate (raw : Json) : Except String Json :=
  match zodParse CreateNoteResultConforms createNoteResultKeys raw with
  | some v => .ok v
  | none => .error "Failed to create note: invalid result shape"

def updateNoteValidate (raw : Json) : Except String Json :=
  match zodParse UpdateNoteResultConforms updateNoteResultKeys raw with
  | some v => .ok v
  | none => .error "Failed to update note: invalid result shape"

def moveNoteValidate (raw : Json) : Except String Json :=
  match zodParse MoveNoteResultConforms moveNoteResultKeys raw with
  | some v => .ok v
  | none => .error "Failed to move note: invalid result shape"

def batchMoveNotesValidate (raw : Json) : Except String Json :=
  match parseBatchMoveResult raw with
  | some v => .ok v
  | none => .error "Failed to batch move notes: invalid result shape"

def deleteNoteValidate (raw : Json) : Except String Json :=
  match zodParse DeleteNoteResultConforms deleteNoteResultKeys raw with
  | some v => .ok v
  | none => .error "Failed to delete note: invalid result shape"

def listFoldersValidate (raw : Json) : Except String Json :=
  match zodParseArray (zodParse FolderConforms folderKeys) raw with
  | some v => .ok v
  | none => .error "Failed to list folders: invalid result shape"

/-- The result handling of `createFolder` (src/notes-service.ts): the raw
adapter value is returned as-is, with no schema validation. -/
def createFolderValidate (raw : Json) : Except String Json := .ok raw

/-- Conformance that `createFolder`'s declared TypeScript return type
`{ id: string, name: string }` would demand (there is no Zod schema for
it in the source). -/
def CreateFolderResultConforms : Json → Bool
  | .obj kvs => fieldIsStr kvs "id" && fieldIsStr kvs "name"
  | _ => false

/-! ### Stripping preserves conformance -/

theorem jsonLookup_filter (keys : List String) (kvs : List (String × Json)) (k : String)
    (hk : keys.contains k = true) :
    jsonLookup (kvs.filter (fun p => keys.contains p.1)) k = jsonLookup kvs k := by
  have hfind : ∀ (q : String × Json) (qs : List (String × Json)),
      List.find? (fun r => r.1 == k) (q :: qs) =
        if q.1 == k then some q else List.find? (fun r => r.1 == k) qs := by
    intro q qs
    rw [List.find?_cons]
    cases h : (q.1 == k) <;> simp [h]
  induction kvs with
  | nil => rfl
  | cons p ps ih =>
    unfold jsonLookup
    rw [List.filter_cons]
    by_cases hp : (p.1 == k) = true
    · have hpk : keys.contains p.1 = true := by
        have hpe : p.1 = k := by simpa using hp
        rw [hpe]; exact hk
      rw [if_pos hpk, hfind, hfind, if_pos hp, if_pos hp]
    · have hp' : ¬ (p.1 == k) = true := hp
      rw [hfind, if_neg hp']
      by_cases hkeep : keys.contains p.1 = true
      · rw [if_pos hkeep, hfind, if_neg hp']
        exact ih
      · rw [if_neg hkeep]
        exact ih

theorem fieldIsStr_strip (keys : List String) (kvs : List (String × Json)) (k : String)
    (hk : keys.contains k = true) :
    fieldIsStr (kvs.filter (fun p => keys.contains p.1)) k = fieldIsStr kvs k := by
  unfold fieldIsStr
  rw [jsonLookup_filter keys kvs k hk]

theorem fieldIsOptStr_strip (keys : List String) (kvs : List (String × Json)) (k : String)
    (hk : keys.contains k = true) :
    fieldIsOptStr (kvs.filter (fun p => keys.contains p.1)) k = fieldIsOptStr kvs k := by
  unfold fieldIsOptStr
  rw [jsonLookup_filter keys kvs k hk]

theorem fieldIsNum_strip (keys : List String) (kvs : List (String × Json)) (k : String)
    (hk : keys.contains k = true) :
    fieldIsNum (kvs.filter (fun p => keys.contains p.1)) k = fieldIsNum kvs k := by
  unfold fieldIsNum
  rw [jsonLookup_filter keys kvs k hk]

theorem fieldIsBool_strip (keys : List String) (kvs : List (String × Json)) (k : String)
    (hk : keys.contains k = true) :
    fieldIsBool (kvs.filter (fun p => keys.contains p.1)) k = fieldIsBool kvs k := by
  unfold fieldIsBool
  rw [jsonLookup_filter keys kvs k hk]

/-- Conformance for `z.array(schema)` values. -/
def arrayConforms (c : Json → Bool) : Json → Bool
  | .arr xs => xs.all c
  | _ => false

theorem zodParse_some (c : Json → Bool) (keys : List String) (j v : Json)
    (h : zodParse c keys j = some v) : c j = true ∧ v = stripKeys keys j := by
  unfold zodParse at h
  by_cases hc : c j = true
  · rw [if_pos hc] at h
    exact ⟨hc, (Option.some.injEq _ _ ▸ h).symm⟩
  · rw [if_neg hc] at h
    cases h

theorem zodParse_none (c : Json → Bool) (keys : List String) (j : Json)
    (h : c j = false) : zodParse c keys j = none := by
  unfold zodParse
  rw [h]
  rfl

theorem mapOption_mem (f : α → Option β) (xs : List α) (ys : List β)
    (h : mapOption f xs = some ys) : ∀ y ∈ ys, ∃ x ∈ xs, f x = some y := by
  induction xs generalizing ys with
  | nil =>
    unfold mapOption at h
    cases h
    intro y hy
    cases hy
  | cons x xs ih =>
    unfold mapOption at h
    cases hfx : f x with
    | none => rw [hfx] at h; cases h
    | some y₀ =>
      rw [hfx] at h
      cases hrest : mapOption f xs with
      | none => rw [hrest] at h; cases h
      | some ys₀ =>
        rw [hrest] at h
        cases h
        intro y hy
        rcases List.mem_cons.mp hy with rfl | hy'
        · exact ⟨x, List.mem_cons_self x xs, hfx⟩
        · rcases ih ys₀ hrest y hy' with ⟨x', hx', hfx'⟩
          exact ⟨x', List.mem_cons_of_mem x hx', hfx'⟩

theorem mapOption_none_of_mem (f : α → Option β) (xs : List α) (x : α)
    (hx : x ∈ xs) (h : f x = none) : mapOption f xs = none := by
  induction xs with
  | nil => cases hx
  | cons a as ih =>
    unfold mapOption
    rcases List.mem_cons.mp hx with rfl | hx'
    · rw [h]
    · cases hfa : f a
      · rfl
      · rw [ih hx']

theorem NoteMetadataConforms_strip (j : Json) (h : NoteMetadataConforms j = true) :
    NoteMetadataConforms (stripKeys noteMetadataKeys j) = true := by
  cases j with
  | obj kvs =>
    simp only [stripKeys, NoteMetadataConforms] at h ⊢
    rw [fieldIsStr_strip _ _ _ (by decide), fieldIsStr_strip _ _ _ (by decide),
      fieldIsStr_strip _ _ _ (by decide), fieldIsStr_strip _ _ _ (by decide),
      fieldIsOptStr_strip _ _ _ (by decide), fieldIsOptStr_strip _ _ _ (by decide),
      fieldIsOptStr_strip _ _ _ (by decide)]
    exact h
  | null => simp [NoteMetadataConforms] at h
  | bool b => simp [NoteMetadataConforms] at h
  | num n => simp [NoteMetadataConforms] at h
  | str s => simp [NoteMetadataConforms] at h
  | arr xs => simp [NoteMetadataConforms] at h

theorem NoteDetailConforms_strip (j : Json) (h : NoteDetailConforms j = true) :
    NoteDetailConforms (stripKeys noteDetailKeys j) = true := by
  cases j with
  | obj kvs =>
    simp only [stripKeys, NoteDetailConforms] at h ⊢
    rw [fieldIsStr_strip _ _ _ (by decide), fieldIsStr_strip _ _ _ (by decide),
      fieldIsStr_strip _ _ _ (by decide), fieldIsStr_strip _ _ _ (by decide),
      fieldIsOptStr_strip _ _ _ (by decide), fieldIsOptStr_strip _ _ _ (by decide),
      fieldIsOptStr_strip _ _ _ (by decide), fieldIsStr_strip _ _ _ (by decide),
      fieldIsStr_strip _ _ _ (by decide)]
    exact h
  | null => simp [NoteDetailConforms] at h
  | bool b => simp [NoteDetailConforms] at h
  | num n => simp [NoteDetailConforms] at h
  | str s => simp [NoteDetailConforms] at h
  | arr xs => simp [NoteDetailConforms] at h

theorem NoteForSummaryConforms_strip (j : Json) (h : NoteForSummaryConforms j = true) :
    NoteForSummaryConforms (stripKeys noteForSummaryKeys j) = true := by
  cases j with
  | obj kvs =>
    simp only [stripKeys, NoteForSummaryConforms] at h ⊢
    rw [fieldIsStr_strip _ _ _ (by decide), fieldIsStr_strip _ _ _ (by decide),
      fieldIsStr_strip _ _ _ (by decide), fieldIsStr_strip _ _ _ (by decide),
      fieldIsStr_strip _ _ _ (by decide), fieldIsStr_strip _ _ _ (by decide),
      fieldIsNum_strip _ _ _ (by decide), fieldIsNum_strip _ _ _ (by decide)]
    exact h
  | null => simp [NoteForSummaryConforms] at h
  | bool b => simp [NoteForSummaryConforms] at h
  | num n => simp [NoteForSummaryConforms] at h
  | str s => simp [NoteForSummaryConforms] at h
  | arr xs => simp [NoteForSummaryConforms] at h

theorem CreateNoteResultConforms_strip (j : Json) (h : CreateNoteResultConforms j = true) :
    CreateNoteResultConforms (stripKeys createNoteResultKeys j) = true := by
  cases j with
  | obj kvs =>
    simp only [stripKeys, CreateNoteResultConforms] at h ⊢
    rw [fieldIsStr_strip _ _ _ (by decide), fieldIsStr_strip _ _ _ (by decide)]
    exact h
  | null => simp [CreateNoteResultConforms] at h
  | bool b => simp [CreateNoteResultConforms] at h
  | num n => simp [CreateNoteResultConforms] at h
  | str s => simp [CreateNoteResultConforms] at h
  | arr xs => simp [CreateNoteResultConforms] at h

theorem UpdateNoteResultConforms_strip (j : Json) (h : UpdateNoteResultConforms j = true) :
    UpdateNoteResultConforms (stripKeys updateNoteResultKeys j) = true := by
  cases j with
  | obj kvs =>
    simp only [stripKeys, UpdateNoteResultConforms] at h ⊢
    rw [fieldIsStr_strip _ _ _ (by decide), fieldIsStr_strip _ _ _ (by decide),
      fieldIsStr_strip _ _ _ (by decide), fieldIsBool_strip _ _ _ (by decide)]
    exact h
  | null => simp [UpdateNoteResultConforms] at h
  | bool b => simp [UpdateNoteResultConforms] at h
  | num n => simp [UpdateNoteResultConforms] at h
  | str s => simp [UpdateNoteResultConforms] at h
  | arr xs => simp [UpdateNoteResultConforms] at h

theorem MoveNoteResultConforms_strip (j : Json) (h : MoveNoteResultConforms j = true) :
    MoveNoteResultConforms (stripKeys moveNoteResultKeys j) = true := by
  cases j with
  | obj kvs =>
    simp only [stripKeys, MoveNoteResultConforms] at h ⊢
    rw [fieldIsStr_strip _ _ _ (by decide), fieldIsStr_strip _ _ _ (by decide),
      fieldIsStr_strip _ _ _ (by decide), fieldIsStr_strip _ _ _ (by decide),
      fieldIsStr_strip _ _ _ (by decide), fieldIsBool_strip _ _ _ (by decide)]
    exact h
  | null => simp [MoveNoteResultConforms] at h
  | bool b => simp [MoveNoteResultConforms] at h
  | num n => simp [MoveNoteResultConforms] at h
  | str s => simp [MoveNoteResultConforms] at h
  | arr xs => simp [MoveNoteResultConforms] at h

theorem DeleteNoteResultConforms_strip (j : Json) (h : DeleteNoteResultConforms j = true) :
    DeleteNoteResultConforms (stripKeys deleteNoteResultKeys j) = true := by
  cases j with
  | obj kvs =>
    simp only [stripKeys, DeleteNoteResultConforms] at h ⊢
    rw [fieldIsStr_strip _ _ _ (by decide), fieldIsStr_strip _ _ _ (by decide),
      fieldIsBool_strip _ _ _ (by decide)]
    exact h
  | null => simp [DeleteNoteResultConforms] at h
  | bool b => simp [DeleteNoteResultConforms] at h
  | num n => simp [DeleteNoteResultConforms] at h
  | str s => simp [DeleteNoteResultConforms] at h
  | arr xs => simp [DeleteNoteResultConforms] at h

theorem FolderConforms_strip (j : Json) (h : FolderConforms j = true) :
    FolderConforms (stripKeys folderKeys j) = true := by
  cases j with
  | obj kvs =>
    simp only [stripKeys, FolderConforms] at h ⊢
    rw [fieldIsStr_strip _ _ _ (by decide), fieldIsStr_strip _ _ _ (by decide),
      fieldIsStr_strip _ _ _ (by decide), fieldIsNum_strip _ _ _ (by decide)]
    exact h
  | null => simp [FolderConforms] at h
  | bool b => simp [FolderConforms] at h
  | num n => simp [FolderConforms] at h
  | str s => simp [FolderConforms] at h
  | arr xs => simp [FolderConforms] at h

theorem FailedEntryConforms_strip (j : Json) (h : FailedEntryConforms j = true) :
    FailedEntryConforms (stripKeys failedEntryKeys j) = true := by
  cases j with
  | obj kvs =>
    simp only [stripKeys, FailedEntryConforms] at h ⊢
    rw [fieldIsStr_strip _ _ _ (by decide), fieldIsStr_strip _ _ _ (by decide)]
    exact h
  | null => simp [FailedEntryConforms] at h
  | bool b => simp [FailedEntryConforms] at h
  | num n => simp [FailedEntryConforms] at h
  | str s => simp [FailedEntryConforms] at h
  | arr xs => simp [FailedEntryConforms] at h

theorem zodParseArray_ok (c : Json → Bool) (keys : List String)
    (hpres : ∀ j, c j = true → c (stripKeys keys j) = true) (raw v : Json)
    (h : zodParseArray (zodParse c keys) raw = some v) : arrayConforms c v = true := by
  cases raw with
  | arr xs =>
    simp only [zodParseArray] at h
    cases hmap : mapOption (zodParse c keys) xs with
    | none => rw [hmap] at h; cases h
    | some ys =>
      rw [hmap] at h
      have h2 : some (Json.arr ys) = some v := h
      cases h2
      show ys.all c = true
      rw [List.all_eq_true]
      intro y hy
      rcases mapOption_mem _ _ _ hmap y hy with ⟨x, _, hxy⟩
      rcases zodParse_some _ _ _ _ hxy with ⟨hcx, rfl⟩
      exact hpres x hcx
  | null => cases h
  | bool b => cases h
  | num n => cases h
  | str s => cases h
  | obj kvs => cases h

theorem zodParseArray_none (c : Json → Bool) (keys : List String) (raw : Json)
    (h : arrayConforms c raw = false) :
    zodParseArray (zodParse c keys) raw = none := by
  cases raw with
  | arr xs =>
    simp only [arrayConforms] at h
    have hex : ∃ x ∈ xs, c x = false := by
      by_contra hno
      push_neg at hno
      have hall : xs.all c = true := by
        rw [List.all_eq_true]
        intro x hx
        cases hcx : c x
        · exact absurd hcx (hno x hx)
        · rfl
      rw [hall] at h
      cases h
    rcases hex with ⟨x, hx, hcx⟩
    simp only [zodParseArray]
    rw [mapOption_none_of_mem _ _ x hx (zodParse_none _ _ _ hcx)]
    rfl
  | null => rfl
  | bool b => rfl
  | num n => rfl
  | str s => rfl
  | obj kvs => rfl

theorem parseBatchMoveResult_ok (raw v : Json)
    (h : parseBatchMoveResult raw = some v) : BatchMoveResultConforms v = true := by
  cases raw with
  | obj kvs =>
    simp only [parseBatchMoveResult] at h
    cases hs : jsonLookup kvs "success" with
    | none => rw [hs] at h; cases h
    | some js =>
      rw [hs] at h
      cases js with
      | bool b =>
        cases hm : jsonLookup kvs "moved" with
        | none => rw [hm] at h; cases h
        | some jm =>
          rw [hm] at h
          cases jm with
          | num m =>
            cases hf : jsonLookup kvs "failed" with
            | none => rw [hf] at h; cases h
            | some jf =>
              rw [hf] at h
              cases jf with
              | arr xs =>
                have h3 : Option.map
                    (fun ys => Json.obj [("success", .bool b), ("moved", .num m),
                      ("failed", .arr ys)])
                    (mapOption (zodParse FailedEntryConforms failedEntryKeys) xs) = some v := h
                cases hmap : mapOption (zodParse FailedEntryConforms failedEntryKeys) xs with
                | none => rw [hmap] at h3; cases h3
                | some ys =>
                  rw [hmap] at h3
                  have h4 : some (Json.obj [("success", .bool b), ("moved", .num m),
                      ("failed", .arr ys)]) = some v := h3
                  cases h4
                  have hred : BatchMoveResultConforms
                      (.obj [("success", .bool b), ("moved", .num m), ("failed", .arr ys)]) =
                      ys.all FailedEntryConforms := rfl
                  rw [hred, List.all_eq_true]
                  intro y hy
                  rcases mapOption_mem _ _ _ hmap y hy with ⟨x, _, hxy⟩
                  rcases zodParse_some _ _ _ _ hxy with ⟨hcx, rfl⟩
                  exact FailedEntryConforms_strip x hcx
              | null => cases h
              | bool c => cases h
              | num c => cases h
              | str c => cases h
              | obj c => cases h
          | null => cases h
          | bool c => cases h
          | str c => cases h
          | arr c => cases h
          | obj c => cases h
      | null => cases h
      | num c => cases h
      | str c => cases h
      | arr c => cases h
      | obj c => cases h
  | null => cases h
  | bool b => cases h
  | num n => cases h
  | str s => cases h
  | arr xs => cases h

theorem parseBatchMoveResult_none (raw : Json)
    (h : BatchMoveResultConforms raw = false) : parseBatchMoveResult raw = none := by
  cases raw with
  | obj kvs =>
    simp only [parseBatchMoveResult]
    cases hs : jsonLookup kvs "success" with
    | none => rfl
    | some js =>
      cases js with
      | bool b =>
        cases hm : jsonLookup kvs "moved" with
        | none => rfl
        | some jm =>
          cases jm with
          | num m =>
            cases hf : jsonLookup kvs "failed" with
            | none => rfl
            | some jf =>
              cases jf with
              | arr xs =>
                simp only [BatchMoveResultConforms, fieldIsBool, fieldIsNum] at h
                rw [hs, hm, hf] at h
                have hall : xs.all FailedEntryConforms = false := by
                  simpa using h
                have hex : ∃ x ∈ xs, FailedEntryConforms x = false := by
                  by_contra hno
                  push_neg at hno
                  have htrue : xs.all FailedEntryConforms = true := by
                    rw [List.all_eq_true]
                    intro x hx
                    cases hcx : FailedEntryConforms x
                    · exact absurd hcx (hno x hx)
                    · rfl
                  rw [htrue] at hall
                  cases hall
                rcases hex with ⟨x, hx, hcx⟩
                show Option.map
                    (fun ys => Json.obj [("success", .bool b), ("moved", .num m),
                      ("failed", .arr ys)])
                    (mapOption (zodParse FailedEntryConforms failedEntryKeys) xs) = none
                rw [mapOption_none_of_mem _ _ x hx (zodParse_none _ _ _ hcx)]
                rfl
              | null => rfl
              | bool c => rfl
              | num c => rfl
              | str c => rfl
              | obj c => rfl
          | null => rfl
          | bool c => rfl
          | str c => rfl
          | arr c => rfl
          | obj c => rfl
      | null => rfl
      | num c => rfl
      | str c => rfl
      | arr c => rfl
      | obj c => rfl
  | null => rfl
  | bool b => rfl
  | num n => rfl
  | str s => rfl
  | arr xs => rfl

/-- Validation contract of a result-handling block: values returned to the
caller conform to the schema, and non-conforming adapter results make the
operation throw. -/
def validatesAgainst (validate : Json → Except String Json) (conforms : Json → Bool) : Prop :=
  (∀ raw v, validate raw = Except.ok v → conforms v = true) ∧
  (∀ raw, conforms raw = false → ∃ e, validate raw = Except.error e)

theorem validatesAgainst_of_parse (p : Json → Option Json) (msg : String) (c : Json → Bool)
    (hok : ∀ raw v, p raw = some v → c v = true)
    (hnone : ∀ raw, c raw = false → p raw = none) :
    validatesAgainst
      (fun raw => match p raw with | some v => Except.ok v | none => Except.error msg) c := by
  constructor
  · intro raw v h
    have h' : (match p raw with | some v => Except.ok v | none => Except.error msg) =
        (Except.ok v : Except String Json) := h
    cases hp : p raw with
    | none => rw [hp] at h'; cases h'
    | some w =>
      rw [hp] at h'
      cases h'
      exact hok raw _ hp
  · intro raw hc
    refine ⟨msg, ?_⟩
    show (match p raw with | some v => Except.ok v | none => Except.error msg) =
      (Except.error msg : Except String Json)
    rw [hnone raw hc]

theorem zodParse_ok_conforms (c : Json → Bool) (keys : List String)
    (hpres : ∀ j, c j = true → c (stripKeys keys j) = true) :
    ∀ raw v, zodParse c keys raw = some v → c v = true := by
  intro raw v h
  rcases zodParse_some _ _ _ _ h with ⟨hc, rfl⟩
  exact hpres raw hc

/-- Claim C1 (amended): every data-returning operation except `createFolder`
validates its adapter result against its Zod result schema — the value
returned to the caller conforms, and a non-conforming result makes the
operation throw — while `createFolder` returns the raw adapter value with
no validation at all. -/
theorem validatedTypedResponses :
    validatesAgainst listNotesValidate (arrayConforms NoteMetadataConforms) ∧
    validatesAgainst searchNotesValidate (arrayConforms NoteMetadataConforms) ∧
    validatesAgainst readNoteValidate NoteDetailConforms ∧
    validatesAgainst getNoteForSummaryValidate NoteForSummaryConforms ∧
    validatesAgainst createNoteValidate CreateNoteResultConforms ∧
    validatesAgainst updateNoteValidate UpdateNoteResultConforms ∧
    validatesAgainst moveNoteValidate MoveNoteResultConforms ∧
    validatesAgainst batchMoveNotesValidate BatchMoveResultConforms ∧
    validatesAgainst deleteNoteValidate DeleteNoteResultConforms ∧
    validatesAgainst listFoldersValidate (arrayConforms FolderConforms) ∧
    (∀ raw, createFolderValidate raw = Except.ok raw) := by
  refine ⟨?_, ?_, ?_, ?_, ?_, ?_, ?_, ?_, ?_, ?_, fun _ => rfl⟩
  · exact validatesAgainst_of_parse _ _ _
      (fun raw v h => zodParseArray_ok _ _ NoteMetadataConforms_strip raw v h)
      (zodParseArray_none _ _)
  · exact validatesAgainst_of_parse _ _ _
      (fun raw v h => zodParseArray_ok _ _ NoteMetadataConforms_strip raw v h)
      (zodParseArray_none _ _)
  · exact validatesAgainst_of_parse _ _ _
      (zodParse_ok_conforms _ _ NoteDetailConforms_strip) (zodParse_none _ _)
  · exact validatesAgainst_of_parse _ _ _
      (zodParse_ok_conforms _ _ NoteForSummaryConforms_strip) (zodParse_none _ _)
  · exact validatesAgainst_of_parse _ _ _
      (zodParse_ok_conforms _ _ CreateNoteResultConforms_strip) (zodParse_none _ _)
  · exact validatesAgainst_of_parse _ _ _
      (zodParse_ok_conforms _ _ UpdateNoteResultConforms_strip) (zodParse_none _ _)
  · exact validatesAgainst_of_parse _ _ _
      (zodParse_ok_conforms _ _ MoveNoteResultConforms_strip) (zodParse_none _ _)
  · exact validatesAgainst_of_parse _ _ _ parseBatchMoveResult_ok parseBatchMoveResult_none
  · exact validatesAgainst_of_parse _ _ _
      (zodParse_ok_conforms _ _ DeleteNoteResultConforms_strip) (zodParse_none _ _)
  · exact validatesAgainst_of_parse _ _ _
      (fun raw v h => zodParseArray_ok _ _ FolderConforms_strip raw v h)
      (zodParseArray_none _ _)

/-- Claim C1 counterexample: `createFolder` has no Zod result schema and
returns a non-conforming adapter value (here the number 5, which does not
even satisfy its declared TypeScript return type) instead of throwing. -/
theorem createFolderUnvalidated :
    createFolderValidate (Json.num 5) = Except.ok (Json.num 5) ∧
    CreateFolderResultConforms (Json.num 5) = false :=
  ⟨rfl, rfl⟩

/-- Claim C1 witness: a conforming listNotes result is returned (and still
conforms), a non-conforming readNote result throws, and `createFolder`
passes an arbitrary value through. -/
theorem validatedTypedResponsesWitness :
    arrayConforms NoteMetadataConforms
      (Json.arr [Json.obj [("id", Json.str "x-1"), ("name", Json.str "a"),
        ("modificationDate", Json.str "2024-01-01"), ("creationDate", Json.str "2024-01-01")]])
      = true ∧
    (∃ e, readNoteValidate (Json.num 7) = Except.error e) ∧
    createFolderValidate (Json.str "odd") = Except.ok (Json.str "odd") := by
  refine ⟨?_, ?_, ?_⟩
  · exact validatedTypedResponses.1.1
      (Json.arr [Json.obj [("id", Json.str "x-1"), ("name", Json.str "a"),
        ("modificationDate", Json.str "2024-01-01"), ("creationDate", Json.str "2024-01-01")]])
      (Json.arr [Json.obj [("id", Json.str "x-1"), ("name", Json.str "a"),
        ("modificationDate", Json.str "2024-01-01"), ("creationDate", Json.str "2024-01-01")]])
      rfl
  · exact validatedTypedResponses.2.2.1.2 (Json.num 7) rfl
  · exact validatedTypedResponses.2.2.2.2.2.2.2.2.2.2 (Json.str "odd")

/-! ## The script-execution adapter (src/jxa-adapter.ts, `runJxa` with the
`timeout` parameter, default 10000 ms)

After the `osascript` child completes, the adapter selects the trimmed
stderr if non-empty (JXA `console.log` writes to stderr), otherwise the
trimmed stdout; returns `null` when nothing was produced; parses the
selected text as JSON; throws on `status === 'error'`; otherwise returns
the `data` field.  Everything thrown is rewrapped by the outer catch as
`Failed to execute JXA: <message>`.  The `Promise.race` against the
`setTimeout` rejection is modelled by comparing the child settle time with
the timeout. -/

/-- Field access `output.k` on a parsed JSON value (`undefined` is `none`). -/
def jsonField (j : Json) (k : String) : Option Json :=
  match j with
  | .obj kvs => jsonLookup kvs k
  | _ => none

/-- Test `output.status === 'error'`. -/
def isErrorStatus (j : Json) : Bool :=
  match jsonField j "status" with
  | some (.str s) => s == "error"
  | _ => false

/-- String interpolation `${output.message}` (only the string case matters
to the claims; non-string values print as their JS rendering). -/
def jxaErrorMessage (j : Json) : String :=
  match jsonField j "message" with
  | some (.str s) => s
  | _ => "undefined"

/-- JS `String.prototype.trim`: drop leading and trailing whitespace
(modelled on character lists so that it evaluates). -/
def jsTrim (s : String) : String :=
  ((s.toList.dropWhile Char.isWhitespace).reverse.dropWhile Char.isWhitespace).reverse.asString

/-- Channel selection of `runJxa`: trimmed stderr if non-empty, else
trimmed stdout, else the empty string (`if (stderr && stderr.trim())`,
then the same for stdout). -/
def selectOutput (stdout stderr : String) : String :=
  if stderr ≠ "" ∧ jsTrim stderr ≠ "" then jsTrim stderr
  else if stdout ≠ "" ∧ jsTrim stdout ≠ "" then jsTrim stdout
  else ""

/-- Output processing of `runJxa` after the child completed with the given
channels; `parseJson` is the host `JSON.parse` (`none` models a parse
exception).  `Except.ok none` is the `return null as T` path, and
`Except.ok (some d)` returns `output.data`. -/
def runJxaProcessOutput (parseJson : String → Option Json) (stdout stderr : String) :
    Except String (Option Json) :=
  let outputText := selectOutput stdout stderr
  if outputText = "" then Except.ok none
  else
    match parseJson outputText with
    | none => Except.error "Failed to execute JXA: JSON.parse: unexpected token"
    | some output =>
      if isErrorStatus output then
        Except.error ("Failed to execute JXA: JXA Error: " ++ jxaErrorMessage output)
      else
        Except.ok (jsonField output "data")

/-- Outcome of the awaited `execAsync` child: completion with the two
channels, or rejection with an error message. -/
inductive ChildOutcome where
  | completed : String → String → ChildOutcome
  | failed : String → ChildOutcome

/-- The race of the child promise against the `setTimeout` rejection: the
child wins when it settles strictly before the timeout fires; otherwise
the timeout error is raised. -/
def raceWithTimeout (childTime : Nat) (child : ChildOutcome) (timeout : Nat) :
    Except String ChildOutcome :=
  if childTime < timeout then Except.ok child
  else Except.error ("JXA execution timeout after " ++ toString timeout ++ "ms")

/-- The full adapter `runJxa` (post-spawn), with the source's default
timeout of 10000 ms: race the child against the timeout, then process the
output; every rejection is rewrapped as `Failed to execute JXA: ...`. -/
def runJxa (parseJson : String → Option Json) (childTime : Nat) (child : ChildOutcome)
    (timeout : Nat := 10000) : Except String (Option Json) :=
  match raceWithTimeout childTime child timeout with
  | .error e => .error ("Failed to execute JXA: " ++ e)
  | .ok (.failed e) => .error ("Failed to execute JXA: " ++ e)
  | .ok (.completed stdout stderr) => runJxaProcessOutput parseJson stdout stderr

theorem jsTrim_empty : jsTrim "" = "" := rfl

theorem selectOutput_stderr (stdout stderr : String) (hne : jsTrim stderr ≠ "") :
    selectOutput stdout stderr = jsTrim stderr := by
  have hs : stderr ≠ "" := by
    intro h
    rw [h, jsTrim_empty] at hne
    exact hne rfl
  unfold selectOutput
  rw [if_pos ⟨hs, hne⟩]

theorem selectOutput_stdout (stdout stderr : String) (hse : jsTrim stderr = "")
    (hso : jsTrim stdout ≠ "") : selectOutput stdout stderr = jsTrim stdout := by
  have hs : stdout ≠ "" := by
    intro h
    rw [h, jsTrim_empty] at hso
    exact hso rfl
  unfold selectOutput
  rw [if_neg (by intro hand; exact hand.2 hse), if_pos ⟨hs, hso⟩]

theorem runJxaProcessOutput_parsed (parseJson : String → Option Json)
    (stdout stderr : String) (j : Json) (hne : selectOutput stdout stderr ≠ "")
    (hj : parseJson (selectOutput stdout stderr) = some j) :
    runJxaProcessOutput parseJson stdout stderr =
      (if isErrorStatus j then
        Except.error ("Failed to execute JXA: JXA Error: " ++ jxaErrorMessage j)
      else Except.ok (jsonField j "data")) := by
  unfold runJxaProcessOutput
  rw [if_neg hne, hj]

/-- Claim C2: for every completed invocation, runJxa selects the trimmed
stderr when it is non-empty and the trimmed stdout otherwise, parses the
selected text as JSON, throws when the parsed object's status field is
'error', returns its data field otherwise, and returns null when both
channels are empty. -/
theorem runJxaParsesEitherChannel
    (parseJson : String → Option Json) (stdout stderr : String) :
    (stderr = "" → stdout = "" →
      runJxaProcessOutput parseJson stdout stderr = Except.ok none) ∧
    (jsTrim stderr ≠ "" → ∀ j, parseJson (jsTrim stderr) = some j →
      (isErrorStatus j = true →
        ∃ e, runJxaProcessOutput parseJson stdout stderr = Except.error e) ∧
      (isErrorStatus j = false →
        runJxaProcessOutput parseJson stdout stderr = Except.ok (jsonField j "data"))) ∧
    (jsTrim stderr = "" → jsTrim stdout ≠ "" → ∀ j, parseJson (jsTrim stdout) = some j →
      (isErrorStatus j = true →
        ∃ e, runJxaProcessOutput parseJson stdout stderr = Except.error e) ∧
      (isErrorStatus j = false →
        runJxaProcessOutput parseJson stdout stderr = Except.ok (jsonField j "data"))) := by
  refine ⟨?_, ?_, ?_⟩
  · intro hse hso
    subst hse hso
    rfl
  · intro hne j hj
    have hsel := selectOutput_stderr stdout stderr hne
    have hsel_ne : selectOutput stdout stderr ≠ "" := by rw [hsel]; exact hne
    have hj' : parseJson (selectOutput stdout stderr) = some j := by rw [hsel]; exact hj
    have hmain := runJxaProcessOutput_parsed parseJson stdout stderr j hsel_ne hj'
    constructor
    · intro herr
      rw [hmain, if_pos herr]
      exact ⟨_, rfl⟩
    · intro hok
      rw [hmain, if_neg (by rw [hok]; exact Bool.false_ne_true)]
  · intro hse hso j hj
    have hsel := selectOutput_stdout stdout stderr hse hso
    have hsel_ne : selectOutput stdout stderr ≠ "" := by rw [hsel]; exact hso
    have hj' : parseJson (selectOutput stdout stderr) = some j := by rw [hsel]; exact hj
    have hmain := runJxaProcessOutput_parsed parseJson stdout stderr j hsel_ne hj'
    constructor
    · intro herr
      rw [hmain, if_pos herr]
      exact ⟨_, rfl⟩
    · intro hok
      rw [hmain, if_neg (by rw [hok]; exact Bool.false_ne_true)]

/-- Claim C2 witness: with stderr "ok" parsed as a success envelope whose
data is 3, the adapter returns 3; evaluated at concrete inputs. -/
theorem runJxaParsesEitherChannelWitness :
    runJxaProcessOutput
      (fun _ => some (Json.obj [("status", Json.str "success"), ("data", Json.num 3)]))
      "" "ok" = Except.ok (some (Json.num 3)) := by
  have h := (runJxaParsesEitherChannel
      (fun _ => some (Json.obj [("status", Json.str "success"), ("data", Json.num 3)]))
      "" "ok").2.1 (by decide)
      (Json.obj [("status", Json.str "success"), ("data", Json.num 3)]) rfl
  exact h.2 (by decide)

/-- Claim C3: when the child has not settled strictly before the timeout
fires (default 10000 ms), runJxa rejects with the timeout error instead of
waiting for the child. -/
theorem runJxaEnforcesTimeout (parseJson : String → Option Json)
    (childTime : Nat) (child : ChildOutcome) :
    (∀ timeout : Nat, timeout ≤ childTime →
      runJxa parseJson childTime child timeout =
        Except.error ("Failed to execute JXA: " ++
          ("JXA execution timeout after " ++ toString timeout ++ "ms"))) ∧
    (10000 ≤ childTime →
      runJxa parseJson childTime child =
        Except.error ("Failed to execute JXA: " ++
          ("JXA execution timeout after " ++ toString (10000 : Nat) ++ "ms"))) := by
  constructor
  · intro timeout ht
    unfold runJxa raceWithTimeout
    rw [if_neg (by omega)]
  · intro ht
    unfold runJxa raceWithTimeout
    rw [if_neg (by omega)]

/-- Claim C3 witness: a child that would settle at 20000 ms is rejected at
the 10000 ms default, and at an explicit 5 ms timeout. -/
theorem runJxaEnforcesTimeoutWitness :
    runJxa (fun _ => none) 20000 (ChildOutcome.completed "" "") =
      Except.error ("Failed to execute JXA: " ++
        ("JXA execution timeout after " ++ toString (10000 : Nat) ++ "ms")) ∧
    runJxa (fun _ => none) 20000 (ChildOutcome.completed "" "") 5 =
      Except.error ("Failed to execute JXA: " ++
        ("JXA execution timeout after " ++ toString (5 : Nat) ++ "ms")) :=
  ⟨(runJxaEnforcesTimeout (fun _ => none) 20000 (ChildOutcome.completed "" "")).2 (by decide),
    (runJxaEnforcesTimeout (fun _ => none) 20000 (ChildOutcome.completed "" "")).1 5 (by decide)⟩

/-! ## The Notes store model

The JXA scripts observe the Notes application through
`notesApp.accounts()`, `account.folders()` (which the source's own
comments describe as a flattened list of all folders of the account) and
`folder.notes`.  A note's dates are `Option Int` because the listNotes
script explicitly guards against a `null` modification or creation date
(`safelyGetDateString`, `modDateVal ? modDateVal.getTime() : 0`). -/

structure JxaNote where
  id : String
  name : String
  modificationDate : Option Int
  creationDate : Option Int
  plaintext : String
deriving DecidableEq

structure JxaFolder where
  id : String
  name : String
  notes : List JxaNote
deriving DecidableEq

structure JxaAccount where
  name : String
  folders : List JxaFolder
deriving DecidableEq

abbrev NotesStore := List JxaAccount

/-! ## listNotes (src/notes-service.ts, listNotes JXA script)

Per account and folder: skip "Recently Deleted"; skip folders not matching
a truthy `targetFolderId`; batch-collect the notes with folder name/id and
optional preview; sort everything by the numeric `modDate` key descending;
`slice(0, limit)`; delete the temporary `modDate` field. -/

/-- The script's `safelyGetDateString`: ISO string of the date, or of the
current date when the value is null (ISO strings are represented by their
timestamps). -/
def safelyGetDateString (now : Int) : Option Int → Int
  | none => now
  | some t => t

/-- An element of `allNotesData` before the temporary `modDate` key is
deleted. -/
structure RawListedNote where
  id : String
  name : String
  modificationDate : Int
  creationDate : Int
  modDate : Int
  folderName : String
  folderId : String
  preview : Option String
deriving DecidableEq

/-- An element of the script's returned array (after `delete n.modDate`). -/
structure ListedNote where
  id : String
  name : String
  modificationDate : Int
  creationDate : Int
  folderName : String
  folderId : String
  preview : Option String
deriving DecidableEq

/-- The guard `if (targetFolderId && fId !== targetFolderId) continue`:
skip the folder when the filter is truthy and the id differs. -/
def folderFilterSkip (targetFolderId : Option String) (fId : String) : Bool :=
  match targetFolderId with
  | none => false
  | some s => if s = "" then false else fId != s

/-- Build one entry of `allNotesData` from a note of the folder. -/
def noteToRaw (now : Int) (includePreview : Bool) (fName fId : String)
    (n : JxaNote) : RawListedNote :=
  { id := n.id
    name := n.name
    modificationDate := safelyGetDateString now n.modificationDate
    creationDate := safelyGetDateString now n.creationDate
    modDate := match n.modificationDate with | some t => t | none => 0
    folderName := fName
    folderId := fId
    preview :=
      if includePreview then
        some (if n.plaintext != "" then (n.plaintext.toList.take 200).asString else "")
      else none }

/-- The nested account/folder loops that build `allNotesData` (an empty
folder's `continue` is the identity on the collected list). -/
def listNotesCollect (store : NotesStore) (includePreview : Bool)
    (targetFolderId : Option String) (now : Int) : List RawListedNote :=
  store.flatMap (fun acc =>
    acc.folders.flatMap (fun f =>
      if f.name = "Recently Deleted" then []
      else if folderFilterSkip targetFolderId f.id then []
      else f.notes.map (noteToRaw now includePreview f.name f.id)))

/-- Removal of the temporary sort key (`delete n.modDate`). -/
def dropModDate (r : RawListedNote) : ListedNote :=
  { id := r.id, name := r.name, modificationDate := r.modificationDate,
    creationDate := r.creationDate, folderName := r.folderName,
    folderId := r.folderId, preview := r.preview }

/-- The listNotes JXA script: collect, sort by `modDate` descending,
`slice(0, limit)`, drop the sort key. -/
def listNotes (store : NotesStore) (limit : Int) (includePreview : Bool)
    (folderId : Option String) (now : Int) : List ListedNote :=
  (jsSliceTo limit
    (sortKeyDesc (fun r => r.modDate)
      (listNotesCollect store includePreview folderId now))).map dropModDate

theorem jsSliceTo_length_le (lim : Int) (xs : List α) (h : 0 ≤ lim) :
    ((jsSliceTo lim xs).length : Int) ≤ lim := by
  simp only [jsSliceTo]
  rw [if_neg (show ¬ lim < 0 by omega)]
  rw [List.length_take]
  rcases le_total lim (xs.length : Int) with hc | hc
  · rw [min_eq_left hc]
    have h1 : lim.toNat ⊓ xs.length ≤ lim.toNat := inf_le_left
    omega
  · rw [min_eq_right hc]
    have h1 : (xs.length : Int).toNat ⊓ xs.length ≤ (xs.length : Int).toNat := inf_le_left
    omega

theorem mem_listNotesCollect (store : NotesStore) (ip : Bool) (tid : Option String)
    (now : Int) (r : RawListedNote) (hr : r ∈ listNotesCollect store ip tid now) :
    ∃ a ∈ store, ∃ f ∈ a.folders, ∃ n ∈ f.notes,
      f.name ≠ "Recently Deleted" ∧ folderFilterSkip tid f.id = false ∧
      r = noteToRaw now ip f.name f.id n := by
  unfold listNotesCollect at hr
  rcases List.mem_flatMap.mp hr with ⟨a, ha, hr2⟩
  rcases List.mem_flatMap.mp hr2 with ⟨f, hf, hr3⟩
  by_cases hrd : f.name = "Recently Deleted"
  · rw [if_pos hrd] at hr3
    cases hr3
  · rw [if_neg hrd] at hr3
    by_cases hskip : folderFilterSkip tid f.id = true
    · rw [if_pos hskip] at hr3
      cases hr3
    · rw [if_neg hskip] at hr3
      rcases List.mem_map.mp hr3 with ⟨n, hn, rfl⟩
      exact ⟨a, ha, f, hf, n, hn, hrd, by simpa using hskip, rfl⟩

theorem collect_modDate_eq (store : NotesStore) (ip : Bool) (tid : Option String) (now : Int)
    (hdates : ∀ a ∈ store, ∀ f ∈ a.folders, ∀ n ∈ f.notes, n.modificationDate ≠ none)
    (r : RawListedNote) (hr : r ∈ listNotesCollect store ip tid now) :
    r.modDate = r.modificationDate := by
  rcases mem_listNotesCollect store ip tid now r hr with ⟨a, ha, f, hf, n, hn, _, _, rfl⟩
  have hnd := hdates a ha f hf n hn
  cases hmd : n.modificationDate with
  | none => exact absurd hmd hnd
  | some t => simp [noteToRaw, safelyGetDateString, hmd]

theorem collect_folderId (store : NotesStore) (ip : Bool) (s : String) (now : Int)
    (hs : s ≠ "") (r : RawListedNote)
    (hr : r ∈ listNotesCollect store ip (some s) now) : r.folderId = s := by
  rcases mem_listNotesCollect store ip (some s) now r hr with ⟨a, _, f, _, n, _, _, hskip, rfl⟩
  have hskip' : (if s = "" then false else f.id != s) = false := hskip
  rw [if_neg hs] at hskip'
  have hfs : f.id = s := by simpa using hskip'
  simp [noteToRaw, hfs]

theorem listNotes_mem_src (store : NotesStore) (limit : Int) (ip : Bool)
    (fid : Option String) (now : Int) (m : ListedNote)
    (hm : m ∈ listNotes store limit ip fid now) :
    ∃ r ∈ listNotesCollect store ip fid now, m = dropModDate r := by
  unfold listNotes at hm
  rcases List.mem_map.mp hm with ⟨r, hr, rfl⟩
  refine ⟨r, ?_, rfl⟩
  simp only [jsSliceTo] at hr
  have h1 : r ∈ sortKeyDesc (fun r => r.modDate) (listNotesCollect store ip fid now) :=
    (List.take_sublist _ _).subset hr
  exact (sortKeyDesc_perm _ _).mem_iff.mp h1

/-- Claim C5 (amended): for every nonnegative limit, every includePreview,
every folderId that is absent or non-empty, and every store whose notes
all carry a modification date, listNotes returns at most `limit` notes,
sorted by modification date in non-increasing order, and only notes of the
requested folder when a folderId is given. -/
theorem listNotesSortedFilteredLimited (store : NotesStore) (limit : Int)
    (includePreview : Bool) (folderId : Option String) (now : Int)
    (hlim : 0 ≤ limit) (hfid : folderId ≠ some "")
    (hdates : ∀ a ∈ store, ∀ f ∈ a.folders, ∀ n ∈ f.notes, n.modificationDate ≠ none) :
    ((listNotes store limit includePreview folderId now).length : Int) ≤ limit ∧
    List.Pairwise (fun a b => b.modificationDate ≤ a.modificationDate)
      (listNotes store limit includePreview folderId now) ∧
    ∀ s, folderId = some s →
      ∀ m ∈ listNotes store limit includePreview folderId now, m.folderId = s := by
  have hsub : ∀ x ∈ jsSliceTo limit (sortKeyDesc (fun r => r.modDate)
      (listNotesCollect store includePreview folderId now)),
      x ∈ listNotesCollect store includePreview folderId now := by
    intro x hx
    simp only [jsSliceTo] at hx
    exact (sortKeyDesc_perm _ _).mem_iff.mp ((List.take_sublist _ _).subset hx)
  refine ⟨?_, ?_, ?_⟩
  · unfold listNotes
    rw [List.length_map]
    exact jsSliceTo_length_le _ _ hlim
  · unfold listNotes
    rw [List.pairwise_map]
    have hsorted := sortKeyDesc_pairwise (fun r => r.modDate)
      (listNotesCollect store includePreview folderId now)
    have hslice : List.Pairwise (fun a b : RawListedNote => b.modDate ≤ a.modDate)
        (jsSliceTo limit (sortKeyDesc (fun r => r.modDate)
          (listNotesCollect store includePreview folderId now))) := by
      simp only [jsSliceTo]
      exact List.Pairwise.sublist (List.take_sublist _ _) hsorted
    refine hslice.imp_of_mem ?_
    intro a b ha hb hle
    have ea := collect_modDate_eq store includePreview folderId now hdates a (hsub a ha)
    have eb := collect_modDate_eq store includePreview folderId now hdates b (hsub b hb)
    show b.modificationDate ≤ a.modificationDate
    rw [← ea, ← eb]
    exact hle
  · intro s hfs m hm
    rcases listNotes_mem_src store limit includePreview folderId now m hm with ⟨r, hr, rfl⟩
    have hs : s ≠ "" := by
      intro hempty
      rw [hempty] at hfs
      exact hfid hfs
    subst hfs
    exact collect_folderId store includePreview s now hs r hr

/-- Claim C5 counterexample: with a negative limit listNotes returns more
notes than the limit allows (JS `slice(0, -1)` drops just the last
element); with the falsy folderId `""` the folder filter is skipped
entirely; and a note with a null modification date sorts with key 0 while
reporting the current date, breaking the non-increasing order. -/
theorem listNotesClaimFalsified :
    ¬ (((listNotes [⟨"acc", [⟨"f1", "Folder", [⟨"n1", "A", some 2, some 2, ""⟩,
        ⟨"n2", "B", some 1, some 1, ""⟩]⟩]⟩] (-1) false none 0).length : Int) ≤ -1) ∧
    (listNotes [⟨"acc", [⟨"f1", "Folder", [⟨"n1", "A", some 2, some 2, ""⟩,
        ⟨"n2", "B", some 1, some 1, ""⟩]⟩]⟩] (-1) false none 0).length = 1 ∧
    (listNotes [⟨"acc", [⟨"f1", "Folder", [⟨"n1", "A", some 2, some 2, ""⟩,
        ⟨"n2", "B", some 1, some 1, ""⟩]⟩]⟩] 10 false (some "") 0).any
        (fun m => m.folderId != "") = true ∧
    ¬ List.Pairwise (fun a b => b.modificationDate ≤ a.modificationDate)
      (listNotes [⟨"acc", [⟨"f1", "Folder", [⟨"n1", "A", none, some 0, ""⟩,
        ⟨"n2", "B", some 5, some 5, ""⟩]⟩]⟩] 10 false none 9) :=
  ⟨by decide, by decide, by decide, by decide⟩

/-- Claim C5 witness: the amended statement applied to a one-folder store
with all hypotheses discharged by evaluation. -/
theorem listNotesSortedFilteredLimitedWitness :
    ((listNotes [⟨"acc", [⟨"f1", "F", [⟨"n1", "A", some 2, some 2, ""⟩]⟩]⟩]
        5 false (some "f1") 0).length : Int) ≤ 5 ∧
    List.Pairwise (fun a b => b.modificationDate ≤ a.modificationDate)
      (listNotes [⟨"acc", [⟨"f1", "F", [⟨"n1", "A", some 2, some 2, ""⟩]⟩]⟩]
        5 false (some "f1") 0) ∧
    ∀ s, (some "f1" : Option String) = some s →
      ∀ m ∈ listNotes [⟨"acc", [⟨"f1", "F", [⟨"n1", "A", some 2, some 2, ""⟩]⟩]⟩]
        5 false (some "f1") 0, m.folderId = s :=
  listNotesSortedFilteredLimited
    [⟨"acc", [⟨"f1", "F", [⟨"n1", "A", some 2, some 2, ""⟩]⟩]⟩]
    5 false (some "f1") 0 (by decide) (by decide) (by decide)

/-! ## listFolders, flat variant (src/notes-service.ts, listFolders JXA
script of the service file that also defines updateNote/deleteNote):
iterate accounts and folders, skip "Recently Deleted", report id, name,
account name and note count. -/

structure FolderInfo where
  id : String
  name : String
  accountName : String
  noteCount : Nat
deriving DecidableEq

def listFolders (store : NotesStore) : List FolderInfo :=
  store.flatMap (fun a => a.folders.filterMap (fun f =>
    if f.name = "Recently Deleted" then none
    else some ⟨f.id, f.name, a.name, f.notes.length⟩))

/-! ## listFolders, nested variant (the service file that also defines
batchMoveNotes): `account.folders()` returns a flattened list of all
folders; the script filters "Recently Deleted" out of that flattened list
when building its id map, collects the direct-child ids of every kept
folder, treats kept folders that are nobody's child as roots, and builds
the output tree recursively — without re-checking folder names during the
recursion.  Folder trees are mutual inductives so that every function
evaluates; duplicate folder ids resolve to the first occurrence (the JS
map keeps the last — the claims only concern folder names). -/

mutual
inductive FolderTree where
  | node : String → String → List JxaNote → Forest → FolderTree
inductive Forest where
  | fnil : Forest
  | fcons : FolderTree → Forest → Forest
end

def FolderTree.fid : FolderTree → String
  | .node i _ _ _ => i

def FolderTree.fname : FolderTree → String
  | .node _ n _ _ => n

def FolderTree.children : FolderTree → Forest
  | .node _ _ _ cs => cs

structure TreeAccount where
  name : String
  roots : Forest

mutual
def flattenTree : FolderTree → List FolderTree
  | .node i n ns cs => .node i n ns cs :: flattenForest cs
def flattenForest : Forest → List FolderTree
  | .fnil => []
  | .fcons t ts => flattenTree t ++ flattenForest ts
end

/-- Top-level ids of a forest (`kids[k].id()`). -/
def forestTopIds : Forest → List String
  | .fnil => []
  | .fcons t ts => t.fid :: forestTopIds ts

/-- Direct-child ids of a folder, keeping only truthy ids
(`if (kidId) childIds.add(kidId)`). -/
def childIdsOf (f : FolderTree) : List String :=
  (forestTopIds f.children).filter (fun i => i != "")

/-! The output node type of the nested listFolders script. -/

mutual
inductive FolderNodeOut where
  | node : String → String → String → Nat → String → ForestOut → FolderNodeOut
inductive ForestOut where
  | onil : ForestOut
  | ocons : FolderNodeOut → ForestOut → ForestOut
end

def FolderNodeOut.oname : FolderNodeOut → String
  | .node _ n _ _ _ _ => n

/-- Path construction `parentPath ? parentPath + "/" + fName : fName`. -/
def jsPathJoin (parentPath name : String) : String :=
  if parentPath = "" then name else parentPath ++ "/" ++ name

mutual
def processRecursive (accountName parentPath : String) : FolderTree → FolderNodeOut
  | .node i n ns cs =>
    .node i n accountName ns.length (jsPathJoin parentPath n)
      (processForest accountName (jsPathJoin parentPath n) cs)
def processForest (accountName path : String) : Forest → ForestOut
  | .fnil => .onil
  | .fcons t ts =>
    .ocons (processRecursive accountName path t) (processForest accountName path ts)
end

def lookupFolder (pairs : List (String × FolderTree)) (i : String) : Option FolderTree :=
  (pairs.find? (fun p => p.1 == i)).map (fun p => p.2)

/-- The nested listFolders script on one account. -/
def listFoldersNestedAccount (a : TreeAccount) : List FolderNodeOut :=
  let allFolders := flattenForest a.roots
  let kept := allFolders.filter (fun f => f.fname != "Recently Deleted")
  let pairs := kept.map (fun f => (f.fid, f))
  let allFolderIds := kept.map (fun f => f.fid)
  let childIds := kept.flatMap childIdsOf
  (allFolderIds.filter (fun i => !(childIds.contains i))).filterMap
    (fun i => (lookupFolder pairs i).map (processRecursive a.name ""))

/-- The nested listFolders script over all accounts. -/
def listFoldersNested (accounts : List TreeAccount) : List FolderNodeOut :=
  accounts.flatMap listFoldersNestedAccount

/-! All names occurring anywhere in an output tree. -/

mutual
def outNames : FolderNodeOut → List String
  | .node _ n _ _ _ subs => n :: outNamesForest subs
def outNamesForest : ForestOut → List String
  | .onil => []
  | .ocons t ts => outNames t ++ outNamesForest ts
end

theorem lookupFolder_mem (pairs : List (String × FolderTree)) (i : String) (f : FolderTree)
    (h : lookupFolder pairs i = some f) : ∃ p ∈ pairs, p.2 = f := by
  unfold lookupFolder at h
  cases hfind : pairs.find? (fun p => p.1 == i) with
  | none => rw [hfind] at h; cases h
  | some p =>
    rw [hfind] at h
    cases h
    exact ⟨p, List.mem_of_find?_eq_some hfind, rfl⟩

/-- Claim C10 (amended): the "Recently Deleted" folder is invisible to
listNotes and to both listFolders variants at the level where the scripts
filter it — every note returned by listNotes comes from a folder not named
"Recently Deleted", every folder of the flat listFolders output and every
top-level folder of the nested listFolders output has another name; the
nested recursion does not re-check the names of subfolders. -/
theorem recentlyDeletedInvisible :
    (∀ (store : NotesStore) (limit : Int) (ip : Bool) (fid : Option String) (now : Int),
      ∀ m ∈ listNotes store limit ip fid now, m.folderName ≠ "Recently Deleted") ∧
    (∀ store : NotesStore, ∀ fi ∈ listFolders store, fi.name ≠ "Recently Deleted") ∧
    (∀ accounts : List TreeAccount, ∀ o ∈ listFoldersNested accounts,
      o.oname ≠ "Recently Deleted") := by
  refine ⟨?_, ?_, ?_⟩
  · intro store limit ip fid now m hm
    rcases listNotes_mem_src store limit ip fid now m hm with ⟨r, hr, rfl⟩
    rcases mem_listNotesCollect store ip fid now r hr with ⟨a, _, f, _, n, _, hrd, _, rfl⟩
    exact hrd
  · intro store fi hfi
    unfold listFolders at hfi
    rcases List.mem_flatMap.mp hfi with ⟨a, _, hfi2⟩
    rcases List.mem_filterMap.mp hfi2 with ⟨f, _, hsome⟩
    by_cases hrd : f.name = "Recently Deleted"
    · rw [if_pos hrd] at hsome
      cases hsome
    · rw [if_neg hrd] at hsome
      cases hsome
      exact hrd
  · intro accounts o ho
    unfold listFoldersNested at ho
    rcases List.mem_flatMap.mp ho with ⟨a, _, ho2⟩
    simp only [listFoldersNestedAccount] at ho2
    rcases List.mem_filterMap.mp ho2 with ⟨i, _, hsome⟩
    cases hlook : lookupFolder
        ((flattenForest a.roots).filter (fun f => f.fname != "Recently Deleted")
          |>.map (fun f => (f.fid, f))) i with
    | none => rw [hlook] at hsome; cases hsome
    | some f =>
      rw [hlook] at hsome
      cases hsome
      rcases lookupFolder_mem _ _ _ hlook with ⟨p, hp, hpf⟩
      rcases List.mem_map.mp hp with ⟨g, hg, rfl⟩
      rcases List.mem_filter.mp hg with ⟨_, hgname⟩
      have hgname' : g.fname ≠ "Recently Deleted" := by simpa using hgname
      cases hpf
      cases g with
      | node i n ns cs =>
        show (processRecursive a.name "" (FolderTree.node i n ns cs)).oname ≠ "Recently Deleted"
        simpa [processRecursive, FolderNodeOut.oname] using hgname'

/-- Claim C10 counterexample: a folder named "Recently Deleted" nested
below a normal folder is returned by the nested listFolders — the script
filters the name only in the flattened id map, not in the recursive tree
builder, so the subfolder appears in the output. -/
theorem recentlyDeletedNestedLeak :
    ((listFoldersNested [⟨"acc",
        Forest.fcons (FolderTree.node "a" "A" []
          (Forest.fcons (FolderTree.node "rd" "Recently Deleted" [] Forest.fnil) Forest.fnil))
        Forest.fnil⟩]).flatMap outNames).contains "Recently Deleted" = true := by decide

/-- Claim C10 witness: the amended statement applied at a concrete store
and output elements, with the membership hypotheses evaluated. -/
theorem recentlyDeletedInvisibleWitness :
    (⟨"n1", "A", 2, 2, "F", "f1", none⟩ : ListedNote).folderName ≠ "Recently Deleted" ∧
    (⟨"f1", "F", "acc", 1⟩ : FolderInfo).name ≠ "Recently Deleted" :=
  ⟨recentlyDeletedInvisible.1 [⟨"acc", [⟨"f1", "F", [⟨"n1", "A", some 2, some 2, ""⟩]⟩]⟩]
      10 false none 0 ⟨"n1", "A", 2, 2, "F", "f1", none⟩ (by decide),
    recentlyDeletedInvisible.2.1 [⟨"acc", [⟨"f1", "F", [⟨"n1", "A", some 2, some 2, ""⟩]⟩]⟩]
      ⟨"f1", "F", "acc", 1⟩ (by decide)⟩

/-! ## searchNotes (src/notes-service.ts, searchNotes JXA script)

Over the flat list `notesApp.notes()`: a first pass collects notes whose
lowercased title contains the lowercased query, stopping at the limit; a
second pass (still capped by the limit) adds notes whose plaintext
contains the query and whose id was not already collected, inside a
try/catch that skips unreadable notes; the collected list is then sorted
by modification date descending.  The first pass reads the dates outside
any try/catch, so a null date there aborts the whole script. -/

/-- JS `toLowerCase`, modelled per character so that it evaluates. -/
def jsToLower (s : String) : String := (s.toList.map Char.toLower).asString

structure SearchedNote where
  id : String
  name : String
  modificationDate : Int
  creationDate : Int
deriving DecidableEq

/-- Building the pushed entry; reading `toISOString` of a null date
throws. -/
def noteToSearched (n : JxaNote) : Except String SearchedNote :=
  match n.modificationDate, n.creationDate with
  | some m, some c => .ok ⟨n.id, n.name, m, c⟩
  | _, _ => .error "toISOString of null"

/-- Title match of the first pass (the query is already lowercased). -/
def titleMatches (q : String) (n : JxaNote) : Bool := jsIncludes (jsToLower n.name) q

/-- Plaintext match of the second pass. -/
def bodyMatches (q : String) (n : JxaNote) : Bool := jsIncludes (jsToLower n.plaintext) q

/-- First pass: `for (...; i < len && matching.length < limit; i++)` over
titles; date errors propagate. -/
def searchFirstPass (q : String) (lim : Int) :
    List JxaNote → List SearchedNote → Except String (List SearchedNote)
  | [], acc => .ok acc
  | n :: ns, acc =>
    if (acc.length : Int) < lim then
      if titleMatches q n then
        match noteToSearched n with
        | .ok m => searchFirstPass q lim ns (acc ++ [m])
        | .error e => .error e
      else searchFirstPass q lim ns acc
    else .ok acc

/-- Second pass: same loop shape, skipping ids already collected, with
the `try { ... } catch { continue }` swallowing read errors. -/
def searchSecondPass (q : String) (lim : Int) :
    List JxaNote → List SearchedNote → List SearchedNote
  | [], acc => acc
  | n :: ns, acc =>
    if (acc.length : Int) < lim then
      if acc.any (fun m => m.id == n.id) then searchSecondPass q lim ns acc
      else if bodyMatches q n then
        match noteToSearched n with
        | .ok m => searchSecondPass q lim ns (acc ++ [m])
        | .error _ => searchSecondPass q lim ns acc
      else searchSecondPass q lim ns acc
    else acc

/-- The searchNotes JXA script: both passes, then sort by modification
date descending; the TS catch rewraps script errors. -/
def searchNotes (notes : List JxaNote) (query : String) (lim : Int) :
    Except String (List SearchedNote) :=
  let q := jsToLower query
  match searchFirstPass q lim notes [] with
  | .error e => .error ("Failed to search notes: " ++ e)
  | .ok tm =>
    .ok (sortKeyDesc (fun m => m.modificationDate) (searchSecondPass q lim notes tm))

theorem noteToSearched_ok (n : JxaNote) (m : SearchedNote)
    (h : noteToSearched n = .ok m) : m.id = n.id ∧ m.name = n.name := by
  unfold noteToSearched at h
  cases hm : n.modificationDate with
  | none => rw [hm] at h; cases h
  | some t =>
    cases hc : n.creationDate with
    | none => rw [hm, hc] at h; cases h
    | some c =>
      rw [hm, hc] at h
      cases h
      exact ⟨rfl, rfl⟩

theorem searchFirstPass_spec (q : String) (lim : Int) :
    ∀ (ns : List JxaNote) (acc out : List SearchedNote),
      searchFirstPass q lim ns acc = .ok out →
      ∃ add, out = acc ++ add ∧
        (∀ m ∈ add, ∃ n ∈ ns, noteToSearched n = .ok m ∧ titleMatches q n = true) ∧
        (add.map (fun m => m.id)).Sublist (ns.map (fun n => n.id)) := by
  intro ns
  induction ns with
  | nil =>
    intro acc out h
    unfold searchFirstPass at h
    cases h
    exact ⟨[], by simp, by simp, by simp⟩
  | cons n ns ih =>
    intro acc out h
    unfold searchFirstPass at h
    by_cases hlen : (acc.length : Int) < lim
    · rw [if_pos hlen] at h
      by_cases ht : titleMatches q n = true
      · rw [if_pos ht] at h
        cases hts : noteToSearched n with
        | error e => rw [hts] at h; cases h
        | ok m =>
          rw [hts] at h
          rcases ih (acc ++ [m]) out h with ⟨add, hout, hfacts, hsub⟩
          refine ⟨m :: add, by simpa using hout, ?_, ?_⟩
          · intro m' hm'
            rcases List.mem_cons.mp hm' with rfl | hm'
            · exact ⟨n, List.mem_cons_self n ns, hts, ht⟩
            · rcases hfacts m' hm' with ⟨n', hn', hfs⟩
              exact ⟨n', List.mem_cons_of_mem n hn', hfs⟩
          · have hid : m.id = n.id := (noteToSearched_ok n m hts).1
            simp only [List.map_cons, hid]
            exact List.Sublist.cons₂ n.id hsub
      · rw [if_neg ht] at h
        rcases ih acc out h with ⟨add, hout, hfacts, hsub⟩
        refine ⟨add, hout, ?_, ?_⟩
        · intro m' hm'
          rcases hfacts m' hm' with ⟨n', hn', hfs⟩
          exact ⟨n', List.mem_cons_of_mem n hn', hfs⟩
        · exact hsub.trans (List.sublist_cons_self n.id _)
    · rw [if_neg hlen] at h
      cases h
      exact ⟨[], by simp, by simp, by simp⟩

theorem searchFirstPass_length (q : String) (lim : Int) :
    ∀ (ns : List JxaNote) (acc out : List SearchedNote),
      searchFirstPass q lim ns acc = .ok out →
      (acc.length : Int) ≤ lim → (out.length : Int) ≤ lim := by
  intro ns
  induction ns with
  | nil =>
    intro acc out h hacc
    unfold searchFirstPass at h
    cases h
    exact hacc
  | cons n ns ih =>
    intro acc out h hacc
    unfold searchFirstPass at h
    by_cases hlen : (acc.length : Int) < lim
    · rw [if_pos hlen] at h
      by_cases ht : titleMatches q n = true
      · rw [if_pos ht] at h
        cases hts : noteToSearched n with
        | error e => rw [hts] at h; cases h
        | ok m =>
          rw [hts] at h
          refine ih (acc ++ [m]) out h ?_
          rw [List.length_append]
          have hone : ([m] : List SearchedNote).length = 1 := rfl
          rw [hone]
          push_cast
          omega
      · rw [if_neg ht] at h
        exact ih acc out h hacc
    · rw [if_neg hlen] at h
      cases h
      exact hacc

theorem searchSecondPass_spec (q : String) (lim : Int) :
    ∀ (ns : List JxaNote) (acc : List SearchedNote),
      ∃ add, searchSecondPass q lim ns acc = acc ++ add ∧
        ∀ m ∈ add, ∃ n ∈ ns, noteToSearched n = .ok m ∧ bodyMatches q n = true ∧
          ∀ m0 ∈ acc, m0.id ≠ m.id := by
  intro ns
  induction ns with
  | nil =>
    intro acc
    exact ⟨[], by simp [searchSecondPass], by simp⟩
  | cons n ns ih =>
    intro acc
    unfold searchSecondPass
    by_cases hlen : (acc.length : Int) < lim
    · rw [if_pos hlen]
      by_cases hdup : acc.any (fun m => m.id == n.id) = true
      · rw [if_pos hdup]
        rcases ih acc with ⟨add, heq, hfacts⟩
        refine ⟨add, heq, ?_⟩
        intro m hm
        rcases hfacts m hm with ⟨n', hn', hfs⟩
        exact ⟨n', List.mem_cons_of_mem n hn', hfs⟩
      · rw [if_neg hdup]
        by_cases hb : bodyMatches q n = true
        · rw [if_pos hb]
          cases hts : noteToSearched n with
          | error e =>
            rcases ih acc with ⟨add, heq, hfacts⟩
            refine ⟨add, heq, ?_⟩
            intro m hm
            rcases hfacts m hm with ⟨n', hn', hfs⟩
            exact ⟨n', List.mem_cons_of_mem n hn', hfs⟩
          | ok m =>
            rcases ih (acc ++ [m]) with ⟨add, heq, hfacts⟩
            refine ⟨m :: add, by simpa using heq, ?_⟩
            intro m' hm'
            rcases List.mem_cons.mp hm' with rfl | hm'
            · refine ⟨n, List.mem_cons_self n ns, hts, hb, ?_⟩
              intro m0 hm0 hid
              apply hdup
              rw [List.any_eq_true]
              refine ⟨m0, hm0, ?_⟩
              have : m'.id = n.id := (noteToSearched_ok n m' hts).1
              rw [← this, hid]
              exact beq_self_eq_true _
            · rcases hfacts m' hm' with ⟨n', hn', h1, h2, h3⟩
              refine ⟨n', List.mem_cons_of_mem n hn', h1, h2, ?_⟩
              intro m0 hm0
              exact h3 m0 (List.mem_append_left _ hm0)
        · rw [if_neg hb]
          rcases ih acc with ⟨add, heq, hfacts⟩
          refine ⟨add, heq, ?_⟩
          intro m hm
          rcases hfacts m hm with ⟨n', hn', hfs⟩
          exact ⟨n', List.mem_cons_of_mem n hn', hfs⟩
    · rw [if_neg hlen]
      exact ⟨[], by simp, by simp⟩

theorem searchSecondPass_length (q : String) (lim : Int) :
    ∀ (ns : List JxaNote) (acc : List SearchedNote),
      (acc.length : Int) ≤ lim →
      (((searchSecondPass q lim ns acc).length : Int)) ≤ lim := by
  intro ns
  induction ns with
  | nil =>
    intro acc hacc
    simpa [searchSecondPass] using hacc
  | cons n ns ih =>
    intro acc hacc
    unfold searchSecondPass
    by_cases hlen : (acc.length : Int) < lim
    · rw [if_pos hlen]
      by_cases hdup : acc.any (fun m => m.id == n.id) = true
      · rw [if_pos hdup]
        exact ih acc hacc
      · rw [if_neg hdup]
        by_cases hb : bodyMatches q n = true
        · rw [if_pos hb]
          cases hts : noteToSearched n with
          | error e => exact ih acc hacc
          | ok m =>
            refine ih (acc ++ [m]) ?_
            rw [List.length_append]
            have hone : ([m] : List SearchedNote).length = 1 := rfl
            rw [hone]
            push_cast
            omega
        · rw [if_neg hb]
          exact ih acc hacc
    · rw [if_neg hlen]
      exact hacc

theorem searchSecondPass_nodup (q : String) (lim : Int) :
    ∀ (ns : List JxaNote) (acc : List SearchedNote),
      (acc.map (fun m => m.id)).Nodup →
      ((searchSecondPass q lim ns acc).map (fun m => m.id)).Nodup := by
  intro ns
  induction ns with
  | nil =>
    intro acc hacc
    simpa [searchSecondPass] using hacc
  | cons n ns ih =>
    intro acc hacc
    unfold searchSecondPass
    by_cases hlen : (acc.length : Int) < lim
    · rw [if_pos hlen]
      by_cases hdup : acc.any (fun m => m.id == n.id) = true
      · rw [if_pos hdup]
        exact ih acc hacc
      · rw [if_neg hdup]
        by_cases hb : bodyMatches q n = true
        · rw [if_pos hb]
          cases hts : noteToSearched n with
          | error e => exact ih acc hacc
          | ok m =>
            refine ih (acc ++ [m]) ?_
            rw [List.map_append, List.nodup_append]
            refine ⟨hacc, by simp, ?_⟩
            intro x hx
            simp only [List.map_cons, List.map_nil, List.mem_singleton]
            intro hxm
            subst hxm
            rcases List.mem_map.mp hx with ⟨m0, hm0, hid0⟩
            apply hdup
            rw [List.any_eq_true]
            refine ⟨m0, hm0, ?_⟩
            have hmn : m.id = n.id := (noteToSearched_ok n m hts).1
            rw [hid0, hmn]
            exact beq_self_eq_true _
        · rw [if_neg hb]
          exact ih acc hacc
    · rw [if_neg hlen]
      exact hacc

/-- Claim C6 (amended): for every nonnegative limit and every note list
with pairwise-distinct ids, a successful searchNotes result has at most
`limit` entries, each returned entry comes from a note containing the
query case-insensitively in its title or plaintext, no two entries share
an id, the result is sorted by modification date descending, and the
collection order is all title matches (up to the limit) followed by body
matches whose ids were not already collected. -/
theorem searchNotesBoundedFiltered (notes : List JxaNote) (query : String) (lim : Int)
    (res : List SearchedNote) (hlim : 0 ≤ lim)
    (hids : (notes.map (fun n => n.id)).Nodup)
    (hres : searchNotes notes query lim = .ok res) :
    ((res.length : Int) ≤ lim) ∧
    (∀ m ∈ res, ∃ n ∈ notes, n.id = m.id ∧ n.name = m.name ∧
      (titleMatches (jsToLower query) n = true ∨ bodyMatches (jsToLower query) n = true)) ∧
    (res.map (fun m => m.id)).Nodup ∧
    List.Pairwise (fun a b => b.modificationDate ≤ a.modificationDate) res ∧
    (∃ tm add, searchFirstPass (jsToLower query) lim notes [] = .ok tm ∧
      searchSecondPass (jsToLower query) lim notes tm = tm ++ add ∧
      res = sortKeyDesc (fun m => m.modificationDate) (tm ++ add) ∧
      (∀ m ∈ tm, ∃ n ∈ notes, noteToSearched n = .ok m ∧
        titleMatches (jsToLower query) n = true) ∧
      (∀ m ∈ add, ∃ n ∈ notes, noteToSearched n = .ok m ∧
        bodyMatches (jsToLower query) n = true ∧ ∀ m0 ∈ tm, m0.id ≠ m.id)) := by
  have hres2 : (match searchFirstPass (jsToLower query) lim notes [] with
      | Except.error e => Except.error ("Failed to search notes: " ++ e)
      | Except.ok tm => Except.ok (sortKeyDesc (fun m => m.modificationDate)
          (searchSecondPass (jsToLower query) lim notes tm))) = Except.ok res := hres
  cases hfp : searchFirstPass (jsToLower query) lim notes [] with
  | error e => rw [hfp] at hres2; cases hres2
  | ok tm =>
    rw [hfp] at hres2
    have hres' : res = sortKeyDesc (fun m => m.modificationDate)
        (searchSecondPass (jsToLower query) lim notes tm) := by
      cases hres2
      rfl
    rcases searchSecondPass_spec (jsToLower query) lim notes tm with ⟨add, hsp, haddfacts⟩
    rcases searchFirstPass_spec (jsToLower query) lim notes [] tm hfp with
      ⟨tm', htm', htmfacts, htmsub⟩
    have htme : tm = tm' := by simpa using htm'
    subst htme
    have hperm : List.Perm res (tm ++ add) := by
      rw [hres', hsp]
      exact sortKeyDesc_perm _ _
    refine ⟨?_, ?_, ?_, ?_, tm, add, rfl, hsp, by rw [hres', hsp], ?_, ?_⟩
    · rw [hperm.length_eq, ← hsp]
      refine searchSecondPass_length _ _ notes tm ?_
      exact searchFirstPass_length _ _ notes [] tm hfp (by simpa using hlim)
    · intro m hm
      have hm2 : m ∈ tm ++ add := hperm.mem_iff.mp hm
      rcases List.mem_append.mp hm2 with hm3 | hm3
      · rcases htmfacts m hm3 with ⟨n, hn, hok, ht⟩
        rcases noteToSearched_ok n m hok with ⟨hid, hname⟩
        exact ⟨n, hn, hid.symm, hname.symm, Or.inl ht⟩
      · rcases haddfacts m hm3 with ⟨n, hn, hok, hb, _⟩
        rcases noteToSearched_ok n m hok with ⟨hid, hname⟩
        exact ⟨n, hn, hid.symm, hname.symm, Or.inr hb⟩
    · have h1 : (tm.map (fun m => m.id)).Nodup := htmsub.nodup hids
      have h2 : ((searchSecondPass (jsToLower query) lim notes tm).map
          (fun m => m.id)).Nodup := searchSecondPass_nodup _ _ notes tm h1
      have h3 : List.Perm (res.map (fun m => m.id))
          ((searchSecondPass (jsToLower query) lim notes tm).map (fun m => m.id)) := by
        refine List.Perm.map _ ?_
        rw [hres']
        exact sortKeyDesc_perm _ _
      exact h3.nodup_iff.mpr h2
    · rw [hres']
      exact sortKeyDesc_pairwise _ _
    · exact htmfacts
    · exact haddfacts

/-- Claim C6 counterexample: two notes sharing the id "X" are both
returned (the first pass never deduplicates), and with a negative limit
the empty result still has more than `limit` entries, so the claim as
stated fails. -/
theorem searchNotesClaimFalsified :
    searchNotes [⟨"X", "apple", some 2, some 2, ""⟩, ⟨"X", "apple pie", some 1, some 1, ""⟩]
      "apple" 10 = Except.ok [⟨"X", "apple", 2, 2⟩, ⟨"X", "apple pie", 1, 1⟩] ∧
    ¬ (([⟨"X", "apple", 2, 2⟩, ⟨"X", "apple pie", 1, 1⟩] : List SearchedNote).map
        (fun m => m.id)).Nodup ∧
    searchNotes [⟨"X", "apple", some 2, some 2, ""⟩] "apple" (-1) = Except.ok [] ∧
    ¬ ((([] : List SearchedNote).length : Int) ≤ -1) :=
  ⟨rfl, by decide, rfl, by decide⟩

/-- Claim C6 witness: the amended statement applied to a single-note store
with all hypotheses evaluated. -/
theorem searchNotesBoundedFilteredWitness :
    ((([⟨"a1", "Apple", 2, 2⟩] : List SearchedNote).length : Int) ≤ 5) ∧
    (∀ m ∈ ([⟨"a1", "Apple", 2, 2⟩] : List SearchedNote),
      ∃ n ∈ [(⟨"a1", "Apple", some 2, some 2, "body"⟩ : JxaNote)], n.id = m.id ∧
        n.name = m.name ∧
        (titleMatches (jsToLower "app") n = true ∨ bodyMatches (jsToLower "app") n = true)) ∧
    (([⟨"a1", "Apple", 2, 2⟩] : List SearchedNote).map (fun m => m.id)).Nodup ∧
    List.Pairwise (fun a b : SearchedNote => b.modificationDate ≤ a.modificationDate)
      [⟨"a1", "Apple", 2, 2⟩] ∧
    (∃ tm add, searchFirstPass (jsToLower "app") 5
        [⟨"a1", "Apple", some 2, some 2, "body"⟩] [] = .ok tm ∧
      searchSecondPass (jsToLower "app") 5 [⟨"a1", "Apple", some 2, some 2, "body"⟩] tm =
        tm ++ add ∧
      ([⟨"a1", "Apple", 2, 2⟩] : List SearchedNote) =
        sortKeyDesc (fun m => m.modificationDate) (tm ++ add) ∧
      (∀ m ∈ tm, ∃ n ∈ [(⟨"a1", "Apple", some 2, some 2, "body"⟩ : JxaNote)],
        noteToSearched n = .ok m ∧ titleMatches (jsToLower "app") n = true) ∧
      (∀ m ∈ add, ∃ n ∈ [(⟨"a1", "Apple", some 2, some 2, "body"⟩ : JxaNote)],
        noteToSearched n = .ok m ∧ bodyMatches (jsToLower "app") n = true ∧
        ∀ m0 ∈ tm, m0.id ≠ m.id)) :=
  searchNotesBoundedFiltered [⟨"a1", "Apple", some 2, some 2, "body"⟩] "app" 5
    [⟨"a1", "Apple", 2, 2⟩] (by decide) (by decide) rfl

theorem escapeHtml_toList (s : String) :
    (escapeHtml s).toList = s.toList.flatMap htmlEntityOf := by
  rw [escapeHtml_eq_flatMap]
  rfl

/-- Claim C7: escapeHtml replaces every occurrence of `&`, `<`, `>`, `"`
and `'` by its HTML entity, so the escaped title and body segments that
createNote and updateNote embed into the note body contain no occurrence
of `<`, `>`, `"` or `'`. -/
theorem escapeHtmlRemovesSpecials :
    (∀ s : String, escapeHtml s = (s.toList.flatMap htmlEntityOf).asString) ∧
    (∀ s : String, ∀ c ∈ (escapeHtml s).toList,
      c ≠ '<' ∧ c ≠ '>' ∧ c ≠ '"' ∧ c ≠ '\'') ∧
    (∀ title body : String, ∃ t b,
      createNoteHtmlContent title body =
        "<div><b>" ++ t ++ "</b></div><div><br></div><div>" ++ b ++ "</div>" ∧
      (∀ c ∈ t.toList, c ≠ '<' ∧ c ≠ '>' ∧ c ≠ '"' ∧ c ≠ '\'') ∧
      (∀ c ∈ b.toList, c ≠ '<' ∧ c ≠ '>' ∧ c ≠ '"' ∧ c ≠ '\'')) ∧
    (∀ body : String, ∃ b, updateNoteHtmlBody body = "<div>" ++ b ++ "</div>" ∧
      ∀ c ∈ b.toList, c ≠ '<' ∧ c ≠ '>' ∧ c ≠ '"' ∧ c ≠ '\'') := by
  have hmem : ∀ s : String, ∀ c ∈ (escapeHtml s).toList,
      c ≠ '<' ∧ c ≠ '>' ∧ c ≠ '"' ∧ c ≠ '\'' := by
    intro s c hc
    rw [escapeHtml_toList] at hc
    rcases List.mem_flatMap.mp hc with ⟨d, _, hcd⟩
    exact htmlEntityOf_no_forbidden d c hcd
  refine ⟨escapeHtml_eq_flatMap, hmem, ?_, ?_⟩
  · intro title body
    exact ⟨escapeHtml title, escapeHtml body, rfl, hmem title, hmem body⟩
  · intro body
    exact ⟨escapeHtml body, rfl, hmem body⟩

/-- Claim C7 witness: the character kept from the input `a<b` is not one of
the forbidden characters, at a concrete membership. -/
theorem escapeHtmlRemovesSpecialsWitness :
    'a' ≠ '<' ∧ 'a' ≠ '>' ∧ 'a' ≠ '"' ∧ 'a' ≠ '\'' :=
  escapeHtmlRemovesSpecials.2.1 "a<b" 'a' (by decide)

/-! ## batchMoveNotes (src/notes-service.ts, batchMoveNotes JXA script of
the service file that also defines createFolder)

The script first locates the target folder (error if absent), then for
each requested note id searches every account and folder for the note; a
found note is moved into the target folder and counted, a missing one
contributes `{ noteId, error: "Note not found" }` to `failed`.  The JXA
`move` relocates the note; it is modelled by extracting the first note
with the id from the store and appending it to the notes of the first
folder with the target id. -/

def folderExistsB (store : NotesStore) (fid : String) : Bool :=
  store.any (fun a => a.folders.any (fun f => f.id == fid))

/-- All notes of the store in iteration order. -/
def allNotes (store : NotesStore) : List JxaNote :=
  store.flatMap (fun a => a.folders.flatMap (fun f => f.notes))

/-- Whether some note of the store has the given id. -/
def noteIdExists (store : NotesStore) (nid : String) : Bool :=
  (allNotes store).any (fun n => n.id == nid)

def extractFromNotes (nid : String) : List JxaNote → Option (JxaNote × List JxaNote)
  | [] => none
  | n :: ns =>
    if n.id == nid then some (n, ns)
    else (extractFromNotes nid ns).map (fun p => (p.1, n :: p.2))

def extractFromFolders (nid : String) : List JxaFolder → Option (JxaNote × List JxaFolder)
  | [] => none
  | f :: fs =>
    match extractFromNotes nid f.notes with
    | some (n, rest) => some (n, { f with notes := rest } :: fs)
    | none => (extractFromFolders nid fs).map (fun p => (p.1, f :: p.2))

def extractFromStore (nid : String) : NotesStore → Option (JxaNote × NotesStore)
  | [] => none
  | a :: as =>
    match extractFromFolders nid a.folders with
    | some (n, fs) => some (n, { a with folders := fs } :: as)
    | none => (extractFromStore nid as).map (fun p => (p.1, a :: p.2))

def addToFolders (fid : String) (n : JxaNote) : List JxaFolder → List JxaFolder
  | [] => []
  | f :: fs =>
    if f.id == fid then { f with notes := f.notes ++ [n] } :: fs
    else f :: addToFolders fid n fs

def addNoteToStore (fid : String) (n : JxaNote) : NotesStore → NotesStore
  | [] => []
  | a :: as =>
    if a.folders.any (fun f => f.id == fid) then
      { a with folders := addToFolders fid n a.folders } :: as
    else a :: addNoteToStore fid n as

/-- The per-note loop of the batchMoveNotes script. -/
def batchMoveLoop (tid : String) : List String → NotesStore → Nat → List (String × String) →
    NotesStore × Nat × List (String × String)
  | [], store, moved, failed => (store, moved, failed)
  | nid :: rest, store, moved, failed =>
    match extractFromStore nid store with
    | some (n, store') =>
      batchMoveLoop tid rest (addNoteToStore tid n store') (moved + 1) failed
    | none => batchMoveLoop tid rest store moved (failed ++ [(nid, "Note not found")])

structure BatchMoveOutcome where
  success : Bool
  moved : Nat
  failed : List (String × String)
deriving DecidableEq

/-- The batchMoveNotes script: locate the target folder, run the loop,
report `success := failed.length === 0`. -/
def batchMoveNotes (store : NotesStore) (noteIds : List String) (tid : String) :
    Except String BatchMoveOutcome :=
  if folderExistsB store tid then
    let r := batchMoveLoop tid noteIds store 0 []
    .ok { success := r.2.2.length == 0, moved := r.2.1, failed := r.2.2 }
  else .error ("Failed to batch move notes: JXA Error: Folder not found: " ++ tid)

theorem perm_any_eq {α : Type} {l₁ l₂ : List α} (h : List.Perm l₁ l₂) (p : α → Bool) :
    l₁.any p = l₂.any p := by
  cases h2 : l₂.any p with
  | true =>
    rcases List.any_eq_true.mp h2 with ⟨x, hx, hp⟩
    exact List.any_eq_true.mpr ⟨x, h.mem_iff.mpr hx, hp⟩
  | false =>
    cases h1 : l₁.any p with
    | false => rfl
    | true =>
      rcases List.any_eq_true.mp h1 with ⟨x, hx, hp⟩
      have : l₂.any p = true := List.any_eq_true.mpr ⟨x, h.mem_iff.mp hx, hp⟩
      rw [this] at h2
      cases h2

/-- Notes of a folder list in iteration order. -/
def notesOfFolders (fs : List JxaFolder) : List JxaNote := fs.flatMap (fun f => f.notes)

theorem extractFromNotes_some (nid : String) :
    ∀ (ns : List JxaNote) (n : JxaNote) (rest : List JxaNote),
      extractFromNotes nid ns = some (n, rest) →
      n.id = nid ∧ List.Perm ns (n :: rest) := by
  intro ns
  induction ns with
  | nil => intro n rest h; cases h
  | cons m ms ih =>
    intro n rest h
    unfold extractFromNotes at h
    by_cases hm : (m.id == nid) = true
    · rw [if_pos hm] at h
      cases h
      exact ⟨by simpa using hm, List.Perm.refl _⟩
    · rw [if_neg hm] at h
      cases hrec : extractFromNotes nid ms with
      | none => rw [hrec] at h; cases h
      | some p =>
        rw [hrec] at h
        have h' : some (p.1, m :: p.2) = some (n, rest) := h
        cases h'
        rcases ih p.1 p.2 hrec with ⟨hid, hperm⟩
        exact ⟨hid, (List.Perm.cons m hperm).trans (List.Perm.swap p.1 m p.2)⟩

theorem extractFromNotes_none (nid : String) :
    ∀ ns : List JxaNote, extractFromNotes nid ns = none →
      (ns.any (fun n => n.id == nid)) = false := by
  intro ns
  induction ns with
  | nil => intro _; rfl
  | cons m ms ih =>
    intro h
    unfold extractFromNotes at h
    by_cases hm : (m.id == nid) = true
    · rw [if_pos hm] at h; cases h
    · rw [if_neg hm] at h
      have hrec : extractFromNotes nid ms = none := by
        cases hrec : extractFromNotes nid ms with
        | none => rfl
        | some p => rw [hrec] at h; cases h
      rw [List.any_cons]
      rw [ih hrec]
      simp only [Bool.or_false]
      exact Bool.not_eq_true _ |>.mp hm ▸ rfl

theorem extractFromFolders_some (nid : String) :
    ∀ (fs : List JxaFolder) (n : JxaNote) (fs' : List JxaFolder),
      extractFromFolders nid fs = some (n, fs') →
      n.id = nid ∧ List.Perm (notesOfFolders fs) (n :: notesOfFolders fs') ∧
      (∀ g, (fs'.any (fun f => f.id == g)) = (fs.any (fun f => f.id == g))) := by
  intro fs
  induction fs with
  | nil => intro n fs' h; cases h
  | cons f frest ih =>
    intro n fs' h
    unfold extractFromFolders at h
    cases hx : extractFromNotes nid f.notes with
    | some p =>
      rw [hx] at h
      have h' : some (p.1, { f with notes := p.2 } :: frest) = some (n, fs') := h
      cases h'
      rcases extractFromNotes_some nid f.notes p.1 p.2 hx with ⟨hid, hperm⟩
      refine ⟨hid, ?_, ?_⟩
      · show List.Perm (f.notes ++ notesOfFolders frest)
          (p.1 :: (p.2 ++ notesOfFolders frest))
        exact hperm.append_right (notesOfFolders frest)
      · intro g
        rfl
    | none =>
      rw [hx] at h
      cases hrec : extractFromFolders nid frest with
      | none => rw [hrec] at h; cases h
      | some p =>
        rw [hrec] at h
        have h' : some (p.1, f :: p.2) = some (n, fs') := h
        cases h'
        rcases ih p.1 p.2 hrec with ⟨hid, hperm, hfold⟩
        refine ⟨hid, ?_, ?_⟩
        · show List.Perm (f.notes ++ notesOfFolders frest)
            (p.1 :: (f.notes ++ notesOfFolders p.2))
          exact (List.Perm.append_left f.notes hperm).trans List.perm_middle
        · intro g
          show ((f.id == g) || p.2.any (fun f => f.id == g)) =
            ((f.id == g) || frest.any (fun f => f.id == g))
          rw [hfold g]

theorem extractFromFolders_none (nid : String) :
    ∀ fs : List JxaFolder, extractFromFolders nid fs = none →
      ((notesOfFolders fs).any (fun n => n.id == nid)) = false := by
  intro fs
  induction fs with
  | nil => intro _; rfl
  | cons f frest ih =>
    intro h
    unfold extractFromFolders at h
    cases hx : extractFromNotes nid f.notes with
    | some p => rw [hx] at h; cases h
    | none =>
      rw [hx] at h
      have hrec : extractFromFolders nid frest = none := by
        cases hrec : extractFromFolders nid frest with
        | none => rfl
        | some p => rw [hrec] at h; cases h
      show ((f.notes ++ notesOfFolders frest).any (fun n => n.id == nid)) = false
      rw [List.any_append, extractFromNotes_none nid f.notes hx, ih hrec]
      rfl

theorem extractFromStore_some (nid : String) :
    ∀ (store : NotesStore) (n : JxaNote) (store' : NotesStore),
      extractFromStore nid store = some (n, store') →
      n.id = nid ∧ List.Perm (allNotes store) (n :: allNotes store') ∧
      (∀ g, folderExistsB store' g = folderExistsB store g) := by
  intro store
  induction store with
  | nil => intro n store' h; cases h
  | cons a arest ih =>
    intro n store' h
    unfold extractFromStore at h
    cases hx : extractFromFolders nid a.folders with
    | some p =>
      rw [hx] at h
      have h' : some (p.1, { a with folders := p.2 } :: arest) = some (n, store') := h
      cases h'
      rcases extractFromFolders_some nid a.folders p.1 p.2 hx with ⟨hid, hperm, hfold⟩
      refine ⟨hid, ?_, ?_⟩
      · show List.Perm (notesOfFolders a.folders ++ allNotes arest)
          (p.1 :: (notesOfFolders p.2 ++ allNotes arest))
        exact hperm.append_right (allNotes arest)
      · intro g
        show (p.2.any (fun f => f.id == g) || arest.any (fun b => b.folders.any (fun f => f.id == g))) =
          (a.folders.any (fun f => f.id == g) || arest.any (fun b => b.folders.any (fun f => f.id == g)))
        rw [hfold g]
    | none =>
      rw [hx] at h
      cases hrec : extractFromStore nid arest with
      | none => rw [hrec] at h; cases h
      | some p =>
        rw [hrec] at h
        have h' : some (p.1, a :: p.2) = some (n, store') := h
        cases h'
        rcases ih p.1 p.2 hrec with ⟨hid, hperm, hfold⟩
        refine ⟨hid, ?_, ?_⟩
        · show List.Perm (notesOfFolders a.folders ++ allNotes arest)
            (p.1 :: (notesOfFolders a.folders ++ allNotes p.2))
          exact (List.Perm.append_left (notesOfFolders a.folders) hperm).trans List.perm_middle
        · intro g
          have hfg := hfold g
          unfold folderExistsB at hfg
          show (a.folders.any (fun f => f.id == g) || p.2.any (fun b => b.folders.any (fun f => f.id == g))) =
            (a.folders.any (fun f => f.id == g) || arest.any (fun b => b.folders.any (fun f => f.id == g)))
          rw [hfg]

theorem extractFromStore_none (nid : String) :
    ∀ store : NotesStore, extractFromStore nid store = none →
      noteIdExists store nid = false := by
  intro store
  induction store with
  | nil => intro _; rfl
  | cons a arest ih =>
    intro h
    unfold extractFromStore at h
    cases hx : extractFromFolders nid a.folders with
    | some p => rw [hx] at h; cases h
    | none =>
      rw [hx] at h
      have hrec : extractFromStore nid arest = none := by
        cases hrec : extractFromStore nid arest with
        | none => rfl
        | some p => rw [hrec] at h; cases h
      show ((notesOfFolders a.folders ++ allNotes arest).any (fun n => n.id == nid)) = false
      rw [List.any_append, extractFromFolders_none nid a.folders hx]
      have := ih hrec
      unfold noteIdExists at this
      rw [this]
      rfl

theorem addToFolders_spec (fid : String) (n : JxaNote) :
    ∀ fs : List JxaFolder, (fs.any (fun f => f.id == fid)) = true →
      List.Perm (notesOfFolders (addToFolders fid n fs)) (n :: notesOfFolders fs) ∧
      (∀ g, ((addToFolders fid n fs).any (fun f => f.id == g)) =
        (fs.any (fun f => f.id == g))) := by
  intro fs
  induction fs with
  | nil => intro h; cases h
  | cons f frest ih =>
    intro h
    unfold addToFolders
    by_cases hf : (f.id == fid) = true
    · rw [if_pos hf]
      constructor
      · show List.Perm ((f.notes ++ [n]) ++ notesOfFolders frest)
          (n :: (f.notes ++ notesOfFolders frest))
        rw [List.append_assoc]
        exact List.perm_middle
      · intro g
        rfl
    · rw [if_neg hf]
      have htail : (frest.any (fun f => f.id == fid)) = true := by
        rw [List.any_cons] at h
        rcases Bool.or_eq_true_iff.mp h with hh | hh
        · exact absurd hh hf
        · exact hh
      rcases ih htail with ⟨hperm, hany⟩
      constructor
      · show List.Perm (f.notes ++ notesOfFolders (addToFolders fid n frest))
          (n :: (f.notes ++ notesOfFolders frest))
        exact (List.Perm.append_left f.notes hperm).trans List.perm_middle
      · intro g
        show ((f.id == g) || (addToFolders fid n frest).any (fun f => f.id == g)) =
          ((f.id == g) || frest.any (fun f => f.id == g))
        rw [hany g]

theorem addNoteToStore_spec (fid : String) (n : JxaNote) :
    ∀ store : NotesStore, folderExistsB store fid = true →
      List.Perm (allNotes (addNoteToStore fid n store)) (n :: allNotes store) ∧
      (∀ g, folderExistsB (addNoteToStore fid n store) g = folderExistsB store g) := by
  intro store
  induction store with
  | nil => intro h; cases h
  | cons a arest ih =>
    intro h
    unfold addNoteToStore
    by_cases ha : (a.folders.any (fun f => f.id == fid)) = true
    · rw [if_pos ha]
      rcases addToFolders_spec fid n a.folders ha with ⟨hperm, hany⟩
      constructor
      · show List.Perm (notesOfFolders (addToFolders fid n a.folders) ++ allNotes arest)
          (n :: (notesOfFolders a.folders ++ allNotes arest))
        exact (hperm.append_right (allNotes arest)).trans (List.Perm.refl _)
      · intro g
        show ((addToFolders fid n a.folders).any (fun f => f.id == g) ||
            arest.any (fun b => b.folders.any (fun f => f.id == g))) =
          (a.folders.any (fun f => f.id == g) ||
            arest.any (fun b => b.folders.any (fun f => f.id == g)))
        rw [hany g]
    · rw [if_neg ha]
      have htail : folderExistsB arest fid = true := by
        unfold folderExistsB at h
        rw [List.any_cons] at h
        rcases Bool.or_eq_true_iff.mp h with hh | hh
        · exact absurd hh ha
        · exact hh
      rcases ih htail with ⟨hperm, hany⟩
      constructor
      · show List.Perm (notesOfFolders a.folders ++ allNotes (addNoteToStore fid n arest))
          (n :: (notesOfFolders a.folders ++ allNotes arest))
        exact (List.Perm.append_left _ hperm).trans List.perm_middle
      · intro g
        have hg := hany g
        unfold folderExistsB at hg
        show (a.folders.any (fun f => f.id == g) ||
            (addNoteToStore fid n arest).any (fun b => b.folders.any (fun f => f.id == g))) =
          (a.folders.any (fun f => f.id == g) ||
            arest.any (fun b => b.folders.any (fun f => f.id == g)))
        rw [hg]

theorem moveStep_preserves (tid nid : String) (store store' : NotesStore) (n : JxaNote)
    (hx : extractFromStore nid store = some (n, store'))
    (hf : folderExistsB store tid = true) :
    (∀ x, noteIdExists (addNoteToStore tid n store') x = noteIdExists store x) ∧
    folderExistsB (addNoteToStore tid n store') tid = true ∧
    noteIdExists store nid = true := by
  rcases extractFromStore_some nid store n store' hx with ⟨hid, hperm, hfold⟩
  have hf' : folderExistsB store' tid = true := by rw [hfold tid]; exact hf
  rcases addNoteToStore_spec tid n store' hf' with ⟨haperm, hafold⟩
  refine ⟨?_, ?_, ?_⟩
  · intro x
    unfold noteIdExists
    rw [perm_any_eq haperm, perm_any_eq hperm]
  · rw [hafold tid]
    exact hf'
  · unfold noteIdExists
    rw [perm_any_eq hperm]
    rw [List.any_cons]
    rw [hid]
    simp

theorem batchMoveLoop_spec (tid : String) :
    ∀ (ids : List String) (store : NotesStore) (moved : Nat) (failed : List (String × String)),
      folderExistsB store tid = true →
      (batchMoveLoop tid ids store moved failed).2.1 +
        (batchMoveLoop tid ids store moved failed).2.2.length =
        moved + failed.length + ids.length ∧
      (batchMoveLoop tid ids store moved failed).2.2 =
        failed ++ (ids.filter (fun nid => !(noteIdExists store nid))).map
          (fun nid => (nid, "Note not found")) := by
  intro ids
  induction ids with
  | nil =>
    intro store moved failed hf
    constructor
    · show moved + failed.length = moved + failed.length + 0
      omega
    · show failed = failed ++ []
      simp
  | cons nid rest ih =>
    intro store moved failed hf
    have hstep : batchMoveLoop tid (nid :: rest) store moved failed =
        (match extractFromStore nid store with
          | some (n, store') =>
            batchMoveLoop tid rest (addNoteToStore tid n store') (moved + 1) failed
          | none => batchMoveLoop tid rest store moved
              (failed ++ [(nid, "Note not found")])) := rfl
    rw [hstep]
    cases hx : extractFromStore nid store with
    | some p =>
      rcases moveStep_preserves tid nid store p.2 p.1 hx hf with ⟨hpres, hf2, hex⟩
      rcases ih (addNoteToStore tid p.1 p.2) (moved + 1) failed hf2 with ⟨ha, hb⟩
      constructor
      · rw [ha]
        simp only [List.length_cons]
        omega
      · rw [hb]
        have hfilter : rest.filter (fun x => !(noteIdExists (addNoteToStore tid p.1 p.2) x)) =
            rest.filter (fun x => !(noteIdExists store x)) :=
          List.filter_congr (fun x _ => by rw [hpres x])
        rw [hfilter, List.filter_cons, hex]
        simp
    | none =>
      have hex : noteIdExists store nid = false := extractFromStore_none nid store hx
      rcases ih store moved (failed ++ [(nid, "Note not found")]) hf with ⟨ha, hb⟩
      constructor
      · rw [ha]
        simp only [List.length_append, List.length_cons, List.length_nil]
        omega
      · rw [hb, List.filter_cons, hex]
        simp

/-- Claim C8: when the target folder is found, batchMoveNotes accounts for
every requested note id: moved plus failed entries equals the number of
requested ids, success holds exactly when nothing failed, and the failed
list is exactly one "Note not found" entry per requested id that does not
exist in the store. -/
theorem batchMoveAccountsForEveryNote (store : NotesStore) (noteIds : List String)
    (tid : String) (out : BatchMoveOutcome)
    (hfolder : folderExistsB store tid = true)
    (hout : batchMoveNotes store noteIds tid = .ok out) :
    out.moved + out.failed.length = noteIds.length ∧
    (out.success = true ↔ out.failed = []) ∧
    out.failed = (noteIds.filter (fun nid => !(noteIdExists store nid))).map
      (fun nid => (nid, "Note not found")) := by
  unfold batchMoveNotes at hout
  rw [if_pos hfolder] at hout
  have hout2 : (Except.ok
      (⟨(batchMoveLoop tid noteIds store 0 []).2.2.length == 0,
        (batchMoveLoop tid noteIds store 0 []).2.1,
        (batchMoveLoop tid noteIds store 0 []).2.2⟩ : BatchMoveOutcome) :
      Except String BatchMoveOutcome) = Except.ok out := hout
  cases hout2
  rcases batchMoveLoop_spec tid noteIds store 0 [] hfolder with ⟨ha, hb⟩
  refine ⟨?_, ?_, ?_⟩
  · show (batchMoveLoop tid noteIds store 0 []).2.1 +
      (batchMoveLoop tid noteIds store 0 []).2.2.length = noteIds.length
    simp only [List.length_nil] at ha
    omega
  · show ((batchMoveLoop tid noteIds store 0 []).2.2.length == 0) = true ↔
      (batchMoveLoop tid noteIds store 0 []).2.2 = []
    rw [Nat.beq_eq_true_eq]
    exact List.length_eq_zero
  · show (batchMoveLoop tid noteIds store 0 []).2.2 =
      (noteIds.filter (fun nid => !(noteIdExists store nid))).map
        (fun nid => (nid, "Note not found"))
    rw [hb]
    simp

/-- Claim C8 witness: one existing and one missing id against a concrete
store; the hypotheses are evaluated. -/
theorem batchMoveAccountsForEveryNoteWitness :
    ({ success := false, moved := 1, failed := [("zzz", "Note not found")] } :
        BatchMoveOutcome).moved +
      ({ success := false, moved := 1, failed := [("zzz", "Note not found")] } :
        BatchMoveOutcome).failed.length = (["n1", "zzz"] : List String).length ∧
    (({ success := false, moved := 1, failed := [("zzz", "Note not found")] } :
        BatchMoveOutcome).success = true ↔
      ({ success := false, moved := 1, failed := [("zzz", "Note not found")] } :
        BatchMoveOutcome).failed = []) ∧
    ({ success := false, moved := 1, failed := [("zzz", "Note not found")] } :
        BatchMoveOutcome).failed =
      ((["n1", "zzz"] : List String).filter (fun nid =>
        !(noteIdExists [⟨"acc", [⟨"f1", "F", [⟨"n1", "A", some 1, some 1, ""⟩]⟩]⟩] nid))).map
        (fun nid => (nid, "Note not found")) :=
  batchMoveAccountsForEveryNote
    [⟨"acc", [⟨"f1", "F", [⟨"n1", "A", some 1, some 1, ""⟩]⟩]⟩] ["n1", "zzz"] "f1"
    { success := false, moved := 1, failed := [("zzz", "Note not found")] }
    (by decide) rfl

/-! ## updateNote (src/notes-service.ts): the TypeScript function

Before building the script, updateNote rejects option records that
provide neither title nor body (JS truthiness: `""` counts as not
provided) and bodies longer than MAX_BODY_SIZE; only then does it escape
the body, wrap it in a div, and invoke the adapter with the script that
finds the note by id and assigns its name/body.  The store model keeps a
single content string per note, which the body assignment overwrites;
`jxaCalls` counts adapter invocations. -/

structure UpdateNoteOptions where
  title : Option String
  body : Option String
deriving DecidableEq

/-- Maximum body size: 100KB (src/notes-service.ts). -/
def MAX_BODY_SIZE : Nat := 100 * 1024

structure UpdateNoteResultJ where
  id : String
  name : String
  modificationDate : Int
  success : Bool
deriving DecidableEq

structure UpdateNoteOutcome where
  result : Except String UpdateNoteResultJ
  store : NotesStore
  jxaCalls : Nat

/-- JS falsiness of an optional string (`!options.title`). -/
def jsFalsyOptStr (o : Option String) : Bool := !(jsTruthyStr o)

/-- In-place mutation of the first note with the given id. -/
def updateFirstNote (nid : String) (upd : JxaNote → JxaNote) :
    List JxaNote → Option (List JxaNote × JxaNote)
  | [] => none
  | n :: ns =>
    if n.id == nid then some (upd n :: ns, upd n)
    else (updateFirstNote nid upd ns).map (fun p => (n :: p.1, p.2))

def updateNoteInFolders (nid : String) (upd : JxaNote → JxaNote) :
    List JxaFolder → Option (List JxaFolder × JxaNote)
  | [] => none
  | f :: fs =>
    match updateFirstNote nid upd f.notes with
    | some (ns, n) => some ({ f with notes := ns } :: fs, n)
    | none => (updateNoteInFolders nid upd fs).map (fun p => (f :: p.1, p.2))

def updateNoteInStore (nid : String) (upd : JxaNote → JxaNote) :
    NotesStore → Option (NotesStore × JxaNote)
  | [] => none
  | a :: as =>
    match updateNoteInFolders nid upd a.folders with
    | some (fs, n) => some ({ a with folders := fs } :: as, n)
    | none => (updateNoteInStore nid upd as).map (fun p => (a :: p.1, p.2))

/-- The mutation the script applies to the found note: assign the name
when newTitle is not null, assign the body when htmlBody is not null. -/
def applyNoteUpdate (newTitle htmlBody : Option String) (n : JxaNote) : JxaNote :=
  { n with
    name := match newTitle with | some t => t | none => n.name
    plaintext := match htmlBody with | some b => b | none => n.plaintext }

/-- The updateNote TypeScript function (validation, escaping, script). -/
def updateNote (store : NotesStore) (noteId : String) (options : UpdateNoteOptions) :
    UpdateNoteOutcome :=
  if jsFalsyOptStr options.title && jsFalsyOptStr options.body then
    ⟨.error "At least one of title or body must be provided", store, 0⟩
  else if jsTruthyStr options.body &&
      decide (MAX_BODY_SIZE < (options.body.getD "").length) then
    ⟨.error ("Body exceeds maximum size of " ++ toString MAX_BODY_SIZE ++ " bytes"), store, 0⟩
  else
    let htmlBody : Option String :=
      match options.body with
      | some b => if b = "" then none else some (updateNoteHtmlBody b)
      | none => none
    match updateNoteInStore noteId (applyNoteUpdate options.title htmlBody) store with
    | none => ⟨.error ("Note not found: " ++ noteId), store, 1⟩
    | some (store', n) =>
      match n.modificationDate with
      | some d => ⟨.ok ⟨n.id, n.name, d, true⟩, store', 1⟩
      | none => ⟨.error "Failed to update note: toISOString of null", store', 1⟩

/-- Claim C9: updateNote rejects an options record providing neither title
nor body, and rejects a body longer than 100*1024 characters, in both
cases before any adapter invocation, leaving the store unchanged. -/
theorem updateNoteValidatesFirst (store : NotesStore) (noteId : String) :
    (updateNote store noteId ⟨none, none⟩ =
      ⟨.error "At least one of title or body must be provided", store, 0⟩) ∧
    (∀ (t : Option String) (b : String), MAX_BODY_SIZE < b.length →
      updateNote store noteId ⟨t, some b⟩ =
        ⟨.error ("Body exceeds maximum size of " ++ toString MAX_BODY_SIZE ++ " bytes"),
          store, 0⟩) := by
  constructor
  · rfl
  · intro t b hb
    have hbne : (b == "") = false := by
      cases hbe : b == "" with
      | true =>
        have : b = "" := by simpa using hbe
        subst this
        simp at hb
      | false => rfl
    unfold updateNote
    have hc1 : (jsFalsyOptStr (⟨t, some b⟩ : UpdateNoteOptions).title &&
        jsFalsyOptStr (⟨t, some b⟩ : UpdateNoteOptions).body) = false := by
      show (jsFalsyOptStr t && jsFalsyOptStr (some b)) = false
      have : jsFalsyOptStr (some b) = false := by
        unfold jsFalsyOptStr jsTruthyStr
        simp [bne, hbne]
      rw [this, Bool.and_false]
    rw [hc1]
    have hc2 : (jsTruthyStr (⟨t, some b⟩ : UpdateNoteOptions).body &&
        decide (MAX_BODY_SIZE < ((⟨t, some b⟩ : UpdateNoteOptions).body.getD "").length)) =
        true := by
      show (jsTruthyStr (some b) && decide (MAX_BODY_SIZE < b.length)) = true
      have h1 : jsTruthyStr (some b) = true := by
        unfold jsTruthyStr
        simp [bne, hbne]
      rw [h1, decide_eq_true hb]
      rfl
    rw [hc2]
    rfl

/-- Claim C9 witness: both rejections at concrete inputs (the oversized
body is 102401 copies of `a`); the length hypothesis is discharged by
computation on the replicate length. -/
theorem updateNoteValidatesFirstWitness :
    updateNote [] "x" ⟨none, none⟩ =
      ⟨.error "At least one of title or body must be provided", [], 0⟩ ∧
    updateNote [] "x" ⟨none, some (String.mk (List.replicate 102401 'a'))⟩ =
      ⟨.error ("Body exceeds maximum size of " ++ toString MAX_BODY_SIZE ++ " bytes"),
        [], 0⟩ :=
  ⟨(updateNoteValidatesFirst [] "x").1,
    (updateNoteValidatesFirst [] "x").2 none (String.mk (List.replicate 102401 'a'))
      (by
        show MAX_BODY_SIZE < (List.replicate 102401 'a').length
        rw [List.length_replicate]
        norm_num [MAX_BODY_SIZE])⟩

/-! ## Service exports and MCP tool dispatch (src/index.ts and
src/notes-service.ts, the pair that ships update/delete/summary)

src/notes-service.ts exports listNotes, listNotesExtended, searchNotes,
readNote, getNoteForSummary, createNote, listFolders, updateNote,
moveNote and deleteNote; src/index.ts imports all of them and its
CallTool handler dispatches nine tools onto them — `list_notes` invokes
listNotesExtended, which itself invokes listNotes. -/

inductive ServiceOp where
  | listNotesOp
  | listNotesExtendedOp
  | searchNotesOp
  | readNoteOp
  | getNoteForSummaryOp
  | createNoteOp
  | updateNoteOp
  | moveNoteOp
  | deleteNoteOp
  | listFoldersOp
deriving DecidableEq

/-- The export list of src/notes-service.ts. -/
def notesServiceExports : List ServiceOp :=
  [.listNotesOp, .listNotesExtendedOp, .searchNotesOp, .readNoteOp, .getNoteForSummaryOp,
    .createNoteOp, .updateNoteOp, .moveNoteOp, .deleteNoteOp, .listFoldersOp]

/-- The CallTool dispatch of src/index.ts: tool name to the service
function its case invokes. -/
def toolDispatch : List (String × ServiceOp) :=
  [("list_notes", .listNotesExtendedOp),
   ("search_notes", .searchNotesOp),
   ("read_note", .readNoteOp),
   ("create_note", .createNoteOp),
   ("list_folders", .listFoldersOp),
   ("update_note", .updateNoteOp),
   ("move_note", .moveNoteOp),
   ("get_note_for_summary", .getNoteForSummaryOp),
   ("delete_note", .deleteNoteOp)]

/-- Direct calls between service functions: listNotesExtended fetches its
rows through listNotes. -/
def serviceCalls : List (ServiceOp × ServiceOp) :=
  [(.listNotesExtendedOp, .listNotesOp)]

/-- An operation is invoked by some tool, directly or through one service
call. -/
def invokedByTool (op : ServiceOp) : Bool :=
  toolDispatch.any (fun t => t.2 == op) ||
    serviceCalls.any (fun e =>
      toolDispatch.any (fun t => t.2 == e.1) && e.2 == op)

/-- Claim C4: the service layer exports a function for each of listing,
searching, reading, creating, updating, deleting and moving notes and for
listing folders, and the MCP server exposes a tool that invokes each of
them (list_notes reaches listNotes through listNotesExtended). -/
theorem fullOperationSetWired :
    ([ServiceOp.listNotesOp, .searchNotesOp, .readNoteOp, .createNoteOp, .updateNoteOp,
      .deleteNoteOp, .moveNoteOp, .listFoldersOp].all
      (fun op => notesServiceExports.contains op && invokedByTool op)) = true := by
  decide
